import Mathlib

/-!
# Verification of the rustbucket server core

A shallow embedding, in Lean 4, of the core of the `rustbucket` in-memory
key-value server (a Redis-like server written in Rust), together with proofs
that settle the frozen claims about its specification.

Conventions of the embedding:

* Bytes are modelled as `Nat` (the source works with `u8`; no claim depends on
  values above 255, and buffers are `List Nat`).
* The streaming cursor of `protocol.rs` (`std::io::Cursor<&[u8]>`) is modelled
  by passing the not-yet-consumed suffix of the buffer.
* Recursive buffer scanning (`Frame::check`, `Frame::parse`) is defined with an
  explicit fuel argument so every definition is structurally recursive and
  computable by kernel reduction; a fuel of `buffer length + 1` is always
  sufficient (each recursive descent into an array element consumes the array
  header, at least three bytes, before recursing), and the top-level wrappers
  `Frame.check` / `Frame.parse` instantiate the fuel that way.  Exhaustion is
  kept observable as a distinct result (`outOfFuel`) and proved unreachable.
* Machine integers (`u64`, `i64`, `usize`) are modelled as `Nat` / `Int`; the
  source's numeric parser (the `atoi` crate) returns `None` on overflow, which
  the unbounded model drops — no claim here involves numbers near `2^64`.
* Rust `f64` scores and `serde_json::Value` documents come from external crates
  and are never inspected by any claim; the store and command layers are
  parameterized over their types and over the external functions the source
  calls on them (float parsing, JSON parsing/printing, sorting by score).
-/

namespace RB

/-- CR and LF byte values, named for readability. -/
def CR : Nat := 13

def LF : Nat := 10

/-- `protocol.rs` `Frame`: one tagged unit of the wire protocol.  `Simple` and
`Error` carry the bytes of the Rust `String` (always valid UTF-8 when produced
by `parse`, but the type does not enforce it, matching `String`'s payload
being modelled as raw bytes). -/
inductive Frame where
  | simple (s : List Nat)
  | error (s : List Nat)
  | integer (n : Int)
  | bulk (b : List Nat)
  | null
  | array (items : List Frame)
deriving Repr

/-- `protocol.rs` `get_line`: scan the remaining buffer for the first adjacent
CR LF pair; on success return the line before it and the suffix after it,
otherwise `none` (the source's `Error::Incomplete`). -/
def getLine : List Nat → Option (List Nat × List Nat)
  | [] => none
  | b :: rest =>
    if b = CR ∧ rest.head? = some LF then
      some ([], rest.tail)
    else
      (getLine rest).map (fun p => (b :: p.1, p.2))

/-- ASCII decimal digit test (bytes `'0'..'9'`). -/
def isDigit (c : Nat) : Bool := 48 ≤ c ∧ c ≤ 57

/-- Accumulating loop of the `atoi` crate: consume leading decimal digits,
stop at the first non-digit. -/
def atoiLoop (acc : Nat) : List Nat → Nat
  | [] => acc
  | c :: rest => if isDigit c then atoiLoop (acc * 10 + (c - 48)) rest else acc

/-- `atoi::atoi::<u64>` as used by `protocol.rs` `get_decimal`: `none` unless
the slice starts with a decimal digit; otherwise the value of the leading
digit run (trailing non-digits are ignored by the crate).  The crate also
returns `None` on `u64` overflow, which this unbounded model drops. -/
def atoiNat : List Nat → Option Nat
  | [] => none
  | c :: rest => if isDigit c then some (atoiLoop (c - 48) rest) else none

/-- `atoi::atoi::<i64>` as used by `get_signed_decimal`: an optional leading
`+` or `-` sign followed by at least one digit. -/
def atoiInt : List Nat → Option Int
  | 43 :: rest => (atoiNat rest).map Int.ofNat
  | 45 :: rest => (atoiNat rest).map (fun n => -(n : Int))
  | l => (atoiNat l).map Int.ofNat

/-- Result of `Frame::check`: either the unconsumed suffix on success, or one
of the two failure modes of `protocol.rs` (`Error::Incomplete`,
`Error::Other`).  `outOfFuel` marks fuel exhaustion of the model and is proved
unreachable at the fuel used by `Frame.check`. -/
inductive CRes where
  | ok (rest : List Nat)
  | incomplete
  | invalid
  | outOfFuel
deriving Repr, DecidableEq

/-- The `for _ in 0..len { Frame::check(src)? }` loop of the array branch of
`Frame::check`: run the element checker `n` times, threading the buffer. -/
def checkArr (chk : List Nat → CRes) : Nat → List Nat → CRes
  | 0, b => .ok b
  | n + 1, b =>
    match chk b with
    | .ok r => checkArr chk n r
    | e => e

/-- The branch dispatch of `protocol.rs` `Frame::check` on the first byte
`c`, with `chk` standing for the recursive call checking one nested frame.
Each branch mirrors the source: `+`/`-` skip a line; `:` requires a
parseable signed decimal line; `$` peeks for `-` (Null sentinel, skip 4
bytes unexamined) or reads a length line and skips `len + 2` bytes without
looking at them; `*` reads a count line and checks that many nested frames;
any other first byte falls back to the inline-command path, which rewinds
one byte and skips a whole line. -/
def checkBody (chk : List Nat → CRes) (c : Nat) (rest : List Nat) : CRes :=
  if c = 43 then        -- b'+'
    match getLine rest with
    | none => .incomplete
    | some (_, r) => .ok r
  else if c = 45 then   -- b'-'
    match getLine rest with
    | none => .incomplete
    | some (_, r) => .ok r
  else if c = 58 then   -- b':'
    match getLine rest with
    | none => .incomplete
    | some (line, r) =>
      match atoiInt line with
      | none => .invalid
      | some _ => .ok r
  else if c = 36 then   -- b'$'
    match rest with
    | [] => .incomplete                      -- peek_u8 fails
    | d :: _ =>
      if d = 45 then                         -- Null sentinel: skip '-1\r\n'
        if 4 ≤ rest.length then .ok (rest.drop 4) else .incomplete
      else
        match getLine rest with
        | none => .incomplete
        | some (line, r) =>
          match atoiNat line with
          | none => .invalid
          | some len =>
            if len + 2 ≤ r.length then .ok (r.drop (len + 2)) else .incomplete
  else if c = 42 then   -- b'*'
    match getLine rest with
    | none => .incomplete
    | some (line, r) =>
      match atoiNat line with
      | none => .invalid
      | some len => checkArr chk len r
  else                   -- inline command: rewind and consume a whole line
    match getLine (c :: rest) with
    | none => .incomplete
    | some (_, r) => .ok r

/-- `protocol.rs` `Frame::check` with explicit fuel. -/
def checkFuel : Nat → List Nat → CRes
  | 0, _ => .outOfFuel
  | _ + 1, [] => .incomplete
  | fuel + 1, c :: rest => checkBody (checkFuel fuel) c rest

/-- `Frame::check` on a buffer: the fuel `length + 1` always suffices (proved
below as `checkFuel_ne_outOfFuel`). -/
def Frame.check (b : List Nat) : CRes := checkFuel (b.length + 1) b

/-! UTF-8 and Unicode helpers used by `Frame::parse` (Rust's
`String::from_utf8` validation and `str::split_whitespace`). -/

/-- A UTF-8 continuation byte `10xxxxxx`. -/
def utf8Cont (b : Nat) : Bool := 128 ≤ b ∧ b ≤ 191

/-- Constraint on the second byte of a three-byte sequence (rejects overlong
encodings for `E0` and surrogates for `ED`). -/
def utf8Seq2Ok (b1 b2 : Nat) : Bool :=
  if b1 = 224 then 160 ≤ b2 ∧ b2 ≤ 191
  else if b1 = 237 then 128 ≤ b2 ∧ b2 ≤ 159
  else utf8Cont b2

/-- Constraint on the second byte of a four-byte sequence (rejects overlong
encodings for `F0` and code points above `U+10FFFF` for `F4`). -/
def utf8Seq3Ok (b1 b2 : Nat) : Bool :=
  if b1 = 240 then 144 ≤ b2 ∧ b2 ≤ 191
  else if b1 = 244 then 128 ≤ b2 ∧ b2 ≤ 143
  else utf8Cont b2

/-- Strict UTF-8 decoding, as performed by Rust's `String::from_utf8`:
returns the code points, or `none` on any ill-formed sequence. -/
def utf8Decode : List Nat → Option (List Nat)
  | [] => some []
  | b1 :: t1 =>
    if b1 ≤ 127 then (utf8Decode t1).map (b1 :: ·)
    else if 194 ≤ b1 ∧ b1 ≤ 223 then
      match t1 with
      | b2 :: t2 =>
        if utf8Cont b2 then
          (utf8Decode t2).map (((b1 - 192) * 64 + (b2 - 128)) :: ·)
        else none
      | _ => none
    else if 224 ≤ b1 ∧ b1 ≤ 239 then
      match t1 with
      | b2 :: b3 :: t3 =>
        if utf8Seq2Ok b1 b2 ∧ utf8Cont b3 then
          (utf8Decode t3).map
            (((b1 - 224) * 4096 + (b2 - 128) * 64 + (b3 - 128)) :: ·)
        else none
      | _ => none
    else if 240 ≤ b1 ∧ b1 ≤ 244 then
      match t1 with
      | b2 :: b3 :: b4 :: t4 =>
        if utf8Seq3Ok b1 b2 ∧ utf8Cont b3 ∧ utf8Cont b4 then
          (utf8Decode t4).map
            (((b1 - 240) * 262144 + (b2 - 128) * 4096 + (b3 - 128) * 64
              + (b4 - 128)) :: ·)
        else none
      | _ => none
    else none

/-- UTF-8 encoding of one code point (Rust's `String` re-encoding when a
split token is turned back into `Bytes`). -/
def utf8EncodeChar (c : Nat) : List Nat :=
  if c ≤ 127 then [c]
  else if c ≤ 2047 then [192 + c / 64, 128 + c % 64]
  else if c ≤ 65535 then [224 + c / 4096, 128 + (c / 64) % 64, 128 + c % 64]
  else [240 + c / 262144, 128 + (c / 4096) % 64, 128 + (c / 64) % 64,
        128 + c % 64]

/-- UTF-8 encoding of a sequence of code points. -/
def utf8Encode (cps : List Nat) : List Nat := (cps.map utf8EncodeChar).flatten

/-- The Unicode `White_Space` property, which Rust's
`char::is_whitespace` (hence `str::split_whitespace`) tests. -/
def isUnicodeWs (c : Nat) : Bool :=
  (9 ≤ c ∧ c ≤ 13) ∨ c = 32 ∨ c = 133 ∨ c = 160 ∨ c = 5760 ∨
    (8192 ≤ c ∧ c ≤ 8202) ∨ c = 8232 ∨ c = 8233 ∨ c = 8239 ∨ c = 8287 ∨
    c = 12288

/-- Worker for `splitWs`: `acc` holds the current token reversed. -/
def splitWsAux : List Nat → List Nat → List (List Nat)
  | [], acc => if acc.isEmpty then [] else [acc.reverse]
  | c :: rest, acc =>
    if isUnicodeWs c then
      if acc.isEmpty then splitWsAux rest []
      else acc.reverse :: splitWsAux rest []
    else splitWsAux rest (c :: acc)

/-- `str::split_whitespace`: the maximal runs of non-whitespace code
points, in order. -/
def splitWs (l : List Nat) : List (List Nat) := splitWsAux l []

/-- Result of `Frame::parse`: the parsed frame plus the unconsumed suffix,
or a failure (`Error::Incomplete` / `Error::Other`).  `outOfFuel` as in
`CRes`. -/
inductive PRes where
  | ok (f : Frame) (rest : List Nat)
  | incomplete
  | invalid
  | outOfFuel
deriving Repr

/-- Result of parsing the `len` elements of an array frame. -/
inductive PArrRes where
  | ok (fs : List Frame) (rest : List Nat)
  | incomplete
  | invalid
  | outOfFuel
deriving Repr

/-- The `for _ in 0..len { out.push(Frame::parse(src)?) }` loop of the array
branch of `Frame::parse`. -/
def parseArr (p : List Nat → PRes) : Nat → List Nat → PArrRes
  | 0, b => .ok [] b
  | n + 1, b =>
    match p b with
    | .ok f r =>
      match parseArr p n r with
      | .ok fs r2 => .ok (f :: fs) r2
      | e => e
    | .incomplete => .incomplete
    | .invalid => .invalid
    | .outOfFuel => .outOfFuel

/-- The branch dispatch of `protocol.rs` `Frame::parse` on the first byte,
with `p` standing for the recursive call parsing one nested frame.  `+`/`-`
lines must be valid UTF-8 (`String::from_utf8`); `$` with a `-` peek
requires the line to be exactly `-1` (else `Error::Other`); a normal bulk
takes `len` payload bytes and skips `len + 2` bytes without checking the
trailing two; the inline fallback decodes the line as UTF-8, splits it on
Unicode whitespace and yields an array of bulk tokens. -/
def parseBody (p : List Nat → PRes) (c : Nat) (rest : List Nat) : PRes :=
  if c = 43 then        -- b'+'
      match getLine rest with
      | none => .incomplete
      | some (line, r) =>
        if (utf8Decode line).isSome then .ok (.simple line) r else .invalid
    else if c = 45 then   -- b'-'
      match getLine rest with
      | none => .incomplete
      | some (line, r) =>
        if (utf8Decode line).isSome then .ok (.error line) r else .invalid
    else if c = 58 then   -- b':'
      match getLine rest with
      | none => .incomplete
      | some (line, r) =>
        match atoiInt line with
        | none => .invalid
        | some n => .ok (.integer n) r
    else if c = 36 then   -- b'$'
      match rest with
      | [] => .incomplete                      -- peek_u8 fails
      | d :: _ =>
        if d = 45 then
          match getLine rest with
          | none => .incomplete
          | some (line, r) =>
            if line = [45, 49] then .ok .null r else .invalid
        else
          match getLine rest with
          | none => .incomplete
          | some (line, r) =>
            match atoiNat line with
            | none => .invalid
            | some len =>
              if len + 2 ≤ r.length then
                .ok (.bulk (r.take len)) (r.drop (len + 2))
              else .incomplete
    else if c = 42 then   -- b'*'
      match getLine rest with
      | none => .incomplete
      | some (line, r) =>
        match atoiNat line with
        | none => .invalid
        | some len =>
          match parseArr p len r with
          | .ok fs r2 => .ok (.array fs) r2
          | .incomplete => .incomplete
          | .invalid => .invalid
          | .outOfFuel => .outOfFuel
    else                   -- inline command fallback
      match getLine (c :: rest) with
      | none => .incomplete
      | some (line, r) =>
        match utf8Decode line with
        | none => .invalid
        | some cps =>
          .ok (.array ((splitWs cps).map (fun w => .bulk (utf8Encode w)))) r

/-- `protocol.rs` `Frame::parse` with explicit fuel. -/
def parseFuel : Nat → List Nat → PRes
  | 0, _ => .outOfFuel
  | _ + 1, [] => .incomplete
  | fuel + 1, c :: rest => parseBody (parseFuel fuel) c rest

/-- `Frame::parse` on a buffer, with the always-sufficient fuel. -/
def Frame.parse (b : List Nat) : PRes := parseFuel (b.length + 1) b

/-- ASCII decimal digits of `n`, most significant first, computed with a
structural fuel (`fuel > n` suffices). -/
def natAsciiAux : Nat → Nat → List Nat
  | 0, _ => []
  | fuel + 1, n => if n < 10 then [48 + n] else natAsciiAux fuel (n / 10) ++ [48 + n % 10]

/-- ASCII decimal rendering of a natural number. -/
def natAscii (n : Nat) : List Nat := natAsciiAux (n + 1) n

/-- ASCII decimal rendering of an integer (a `-` sign for negatives). -/
def intAscii (i : Int) : List Nat :=
  if i < 0 then 45 :: natAscii (-i).toNat else natAscii i.toNat

mutual

/-- Modelled from the spec: the wire encoding of a frame.  The encoder is
`Connection::write_frame` in `connection.rs`, which is not among the provided
sources; this definition follows the wire grammar of spec §4.1 exactly
(`+s CRLF`, `-s CRLF`, `:n CRLF`, `$len CRLF payload CRLF`, `$-1 CRLF` for
Null, `*count CRLF` followed by the encoded elements, depth first). -/
def encodeFrame : Frame → List Nat
  | .simple s => 43 :: s ++ [CR, LF]
  | .error s => 45 :: s ++ [CR, LF]
  | .integer n => 58 :: intAscii n ++ [CR, LF]
  | .bulk b => 36 :: natAscii b.length ++ [CR, LF] ++ b ++ [CR, LF]
  | .null => [36, 45, 49, CR, LF]
  | .array fs => 42 :: natAscii fs.length ++ [CR, LF] ++ encodeFrames fs

/-- Encoding of a sequence of frames, in order. -/
def encodeFrames : List Frame → List Nat
  | [] => []
  | f :: fs => encodeFrame f ++ encodeFrames fs

end

/-- No adjacent CR LF pair occurs in the byte list. -/
def lineFree : List Nat → Bool
  | [] => true
  | [_] => true
  | a :: b :: t => !(a = CR && b = LF) && lineFree (b :: t)

mutual

/-- The text payloads of every `Simple` and `Error` frame inside `f` are free
of embedded CR LF pairs (bulk payloads may contain anything: they are length
prefixed on the wire). -/
def crlfFreeF : Frame → Bool
  | .simple s => lineFree s
  | .error s => lineFree s
  | .integer _ => true
  | .bulk _ => true
  | .null => true
  | .array fs => crlfFreeL fs

/-- `crlfFreeF` for every element of the list. -/
def crlfFreeL : List Frame → Bool
  | [] => true
  | f :: fs => crlfFreeF f && crlfFreeL fs

end

/-! ## The store (`db.rs`)

The 64 shards together form one key-to-value map (keys are unique across the
whole store, and every operation touches only the shard `shardOf k` of its
key); the model keeps the union of the shards as one association list plus
the per-shard version counters.  `shardOf` abstracts the runtime-seeded
`ahash` of the key modulo 64: it is an arbitrary function fixed per `Db`
value.  Scores (`f64`) and JSON documents (`serde_json::Value`) are external
types `S` and `J`. -/

/-- Keys, fields, members and values are byte sequences (`Bytes` or the bytes
of a Rust `String`). -/
abbrev Key := List Nat

/-- `db.rs` `DataType`: the supported value families. -/
inductive DataType (S J : Type) where
  | str (b : List Nat)
  | list (l : List (List Nat))
  | set (s : List (List Nat))
  | hash (h : List (Key × List Nat))
  | zset (z : List (Key × S))
  | json (j : J)

/-- Lookup in an association list with unique keys (`HashMap::get`). -/
def assocGet : List (Key × α) → Key → Option α
  | [], _ => none
  | e :: rest, k => if e.1 = k then some e.2 else assocGet rest k

/-- Insert-or-replace in an association list (`HashMap::insert`). -/
def assocPut : List (Key × α) → Key → α → List (Key × α)
  | [], k, v => [(k, v)]
  | e :: rest, k, v => if e.1 = k then (k, v) :: rest else e :: assocPut rest k v

/-- Removal from an association list (`HashMap::remove`), plus whether the
key was present. -/
def assocRemove (l : List (Key × α)) (k : Key) : List (Key × α) × Bool :=
  (l.filter (fun e => e.1 ≠ k), l.any (fun e => e.1 = k))

/-- `HashSet::insert`: add a member if new; report whether it was added. -/
def memberAdd (s : List (List Nat)) (m : List Nat) : List (List Nat) × Bool :=
  if m ∈ s then (s, false) else (s ++ [m], true)

/-- `HashSet::remove`: drop a member; report whether it was present. -/
def memberRemove (s : List (List Nat)) (m : List Nat) : List (List Nat) × Bool :=
  if m ∈ s then (s.filter (· ≠ m), true) else (s, false)

/-- `db.rs` `Db`: the sharded store.  `entries` is the union of the shards'
maps (keys unique); `version` is the per-shard counter vector (`u64`,
modelled unbounded); `shardOf` is the seeded hash modulo `SHARD_COUNT`. -/
structure Db (S J : Type) where
  shardOf : Key → Nat
  entries : List (Key × DataType S J)
  version : Nat → Nat

/-- `Db::get_shard_version`. -/
def Db.shardVersion (db : Db S J) (i : Nat) : Nat := db.version i

/-- `Db::increment_version`, as the new counter vector. -/
def Db.bumpVersion (db : Db S J) (i : Nat) : Nat → Nat :=
  fun j => if j = i then db.version j + 1 else db.version j

/-- The value stored at `k` (`shard.get(key)` on `k`'s shard);
`Db::get_value_clone` / the `db.get_value` used by `cmd.rs`. -/
def Db.getValue (db : Db S J) (k : Key) : Option (DataType S J) :=
  assocGet db.entries k

/-- `Db::set_value`: unconditionally store `v` at `k` and increment the
owning shard's version counter. -/
def Db.setValue (db : Db S J) (k : Key) (v : DataType S J) : Db S J :=
  { db with entries := assocPut db.entries k v
            version := db.bumpVersion (db.shardOf k) }

/-- `Db::get`: the String value at `k`, or `none` (also on another type). -/
def Db.get (db : Db S J) (k : Key) : Option (List Nat) :=
  match assocGet db.entries k with
  | some (.str b) => some b
  | _ => none

/-- `Db::set`: unconditionally overwrite with a String value; increments the
shard version. -/
def Db.set (db : Db S J) (k : Key) (v : List Nat) : Db S J :=
  { db with entries := assocPut db.entries k (.str v)
            version := db.bumpVersion (db.shardOf k) }

/-- `Db::delete`: remove `k`; the shard version is incremented only when the
key was present. -/
def Db.delete (db : Db S J) (k : Key) : Db S J × Bool :=
  let (l, present) := assocRemove db.entries k
  (if present then
     { db with entries := l, version := db.bumpVersion (db.shardOf k) }
   else db, present)

/-- `Db::exists`. -/
def Db.existsKey (db : Db S J) (k : Key) : Bool :=
  db.entries.any (fun e => e.1 = k)

/-- `Db::keys`: every key of every shard. -/
def Db.keys (db : Db S J) : List Key := db.entries.map (·.1)

/-- `Db::len`: the number of keys. -/
def Db.size (db : Db S J) : Nat := db.entries.length

/-- `Db::clear`: remove every key from every shard.  Note that the source
does NOT touch the version counters here. -/
def Db.clear (db : Db S J) : Db S J := { db with entries := [] }

/-- `Db::hset`: materialize an empty hash if the key is absent, then insert
the field unconditionally; returns 1 whenever the entry is a hash (new or
replaced field alike, with a version increment), 0 when the key holds a
value of another family (no mutation). -/
def Db.hset (db : Db S J) (k f v : Key) : Db S J × Nat :=
  match assocGet db.entries k with
  | none =>
    ({ db with entries := assocPut db.entries k (.hash [(f, v)])
               version := db.bumpVersion (db.shardOf k) }, 1)
  | some (.hash h) =>
    ({ db with entries := assocPut db.entries k (.hash (assocPut h f v))
               version := db.bumpVersion (db.shardOf k) }, 1)
  | some _ => (db, 0)

/-- `Db::lpop`: pop from the front; bump the version if something was
popped; remove the key entirely if the list is left empty. -/
def Db.lpop (db : Db S J) (k : Key) : Db S J × Option (List Nat) :=
  match assocGet db.entries k with
  | some (.list l) =>
    match l with
    | [] => (db, none)      -- pop_front on the (unreachable) empty list
    | v :: rest =>
      if rest.isEmpty then
        ({ db with entries := (assocRemove db.entries k).1
                   version := db.bumpVersion (db.shardOf k) }, some v)
      else
        ({ db with entries := assocPut db.entries k (.list rest)
                   version := db.bumpVersion (db.shardOf k) }, some v)
  | _ => (db, none)

/-- `Db::rpop`: pop from the back; same emptiness handling as `Db.lpop`. -/
def Db.rpop (db : Db S J) (k : Key) : Db S J × Option (List Nat) :=
  match assocGet db.entries k with
  | some (.list l) =>
    match l.getLast? with
    | none => (db, none)
    | some v =>
      if l.dropLast.isEmpty then
        ({ db with entries := (assocRemove db.entries k).1
                   version := db.bumpVersion (db.shardOf k) }, some v)
      else
        ({ db with entries := assocPut db.entries k (.list l.dropLast)
                   version := db.bumpVersion (db.shardOf k) }, some v)
  | _ => (db, none)

/-- `Db::srem`: remove one member; bump the version if it was present;
remove the key when the set is left empty. -/
def Db.srem (db : Db S J) (k : Key) (m : List Nat) : Db S J × Nat :=
  match assocGet db.entries k with
  | some (.set s) =>
    let (s', removed) := memberRemove s m
    let db' :=
      if removed then { db with version := db.bumpVersion (db.shardOf k) }
      else db
    if s'.isEmpty then
      ({ db' with entries := (assocRemove db'.entries k).1 }, if removed then 1 else 0)
    else
      ({ db' with entries := assocPut db'.entries k (.set s') }, if removed then 1 else 0)
  | _ => (db, 0)

/-- Rust's `as usize` cast of an `i64`: two's-complement wrap into `0..2^64`.
Negative values wrap to huge positive ones. -/
def intToUsize (i : Int) : Nat := (i % (2 : Int) ^ 64).toNat

/-- `Db::lrange`: resolve Python-style negative indices, clamp `start` from
below at 0, take `min stop (len-1)` and cast it `as usize` — a still-negative
`stop` therefore WRAPS to a huge index instead of being clamped, and the
`start > stop` emptiness guard does not fire. -/
def Db.lrange (db : Db S J) (k : Key) (start stop : Int) : List (List Nat) :=
  match assocGet db.entries k with
  | some (.list l) =>
    let len : Int := l.length
    if len = 0 then []
    else
      let start := if start < 0 then len + start else start
      let stop := if stop < 0 then len + stop else stop
      let startN : Nat := (max start 0).toNat
      let stopN : Nat := intToUsize (min stop (len - 1))
      if startN > stopN ∨ startN ≥ l.length then []
      else (l.drop startN).take (stopN - startN + 1)
  | _ => []

/-! ## The command layer (`cmd.rs`)

Each command's `apply` is modelled as a pure function from the store to the
new store plus the list of frames written to the connection (every apply
writes exactly one top-level frame, proved below as `applyCommand_one`).
External crate functions the source calls — `str::parse::<f64>` with its
`unwrap_or(0.0)` default, `serde_json::from_str`, `serde_json::Value`'s
`to_string`, and the `sort_by(partial_cmp)` over `f64` scores — are bundled
as parameters. -/

/-- The byte sequence of a Lean string literal.  All literals used in this
development are ASCII, for which code points and UTF-8 bytes coincide. -/
def strBytes (s : String) : List Nat := s.data.map Char.toNat

/-- The full wrong-type error message of `cmd.rs`. -/
def wrongTypeMsg : List Nat :=
  strBytes "WRONGTYPE Operation against a key holding the wrong kind of value"

/-- `str::starts_with` on bytes. -/
def startsWith : List Nat → List Nat → Bool
  | _, [] => true
  | [], _ :: _ => false
  | a :: t, b :: u => a = b && startsWith t u

/-- `str::contains` with a string pattern: some contiguous substring of
`hay` equals `pat`. -/
def bytesContains : List Nat → List Nat → Bool
  | [], pat => pat.isEmpty
  | a :: t, pat => startsWith (a :: t) pat || bytesContains t pat

/-- External crate functions used by the command layer, over an abstract
score type `S` (`f64`) and JSON document type `J` (`serde_json::Value`). -/
structure Externs (S J : Type) where
  /-- `score_str.parse::<f64>().unwrap_or(0.0)` (total: the default absorbs
  the error case). -/
  parseF64 : List Nat → S
  /-- `serde_json::from_str`. -/
  parseJson : List Nat → Option J
  /-- `serde_json::Value::to_string` (bytes of the rendering). -/
  renderJson : J → List Nat
  /-- `elements.sort_by(|a, b| a.1.partial_cmp(b.1).unwrap_or(Equal))`:
  reordering of member/score pairs by ascending score. -/
  sortByScore : List (Key × S) → List (Key × S)

/-- `cmd.rs` `Command`: one parsed command with its arguments.  Scores in
`zadd` are already parsed (`ZAdd::parse_frames` runs `parse::<f64>`). -/
inductive Command (S : Type) where
  | get (key : Key)
  | set (key : Key) (value : List Nat)
  | del (key : Key)
  | ping (msg : Option (List Nat))
  | auth (password : List Nat) (username : Option (List Nat))
  | info (sect : Option (List Nat))
  | scan (cursor : Nat) (matchPat : Option (List Nat)) (count : Option Nat)
  | keys (pattern : List Nat)
  | typeCmd (key : Key)
  | dbsize
  | flushdb
  | existsCmd (key : Key)
  | hset (key field : Key) (value : List Nat)
  | hget (key field : Key)
  | hdel (key field : Key)
  | hexists (key field : Key)
  | hgetall (key : Key)
  | hkeys (key : Key)
  | hvals (key : Key)
  | hscan (key : Key) (cursor : Nat) (matchPat : Option (List Nat)) (count : Option Nat)
  | hlen (key : Key)
  | lpush (key : Key) (values : List (List Nat))
  | rpush (key : Key) (values : List (List Nat))
  | lpop (key : Key)
  | rpop (key : Key)
  | lrange (key : Key) (start stop : Int)
  | sadd (key : Key) (members : List (List Nat))
  | smembers (key : Key)
  | srem (key : Key) (members : List (List Nat))
  | jsonSet (key : Key) (path : List Nat) (value : List Nat)
  | jsonGet (key : Key) (path : Option (List Nat))
  | zadd (key : Key) (elements : List (S × Key))
  | zrange (key : Key) (start stop : Int)
  | ttl (key : Key)
  | pttl (key : Key)
  | select (index : Int)
  | unknown (commandName : List Nat)

/-- The `MATCH` filtering shared by `Scan::apply`, `Keys::apply` and
`HScan::apply`: strip every `*` from the pattern; keep all items if nothing
remains, else keep the items containing the remainder as a substring. -/
def retainContains (items : List (List Nat)) (pattern : List Nat) : List (List Nat) :=
  let p := pattern.filter (· ≠ 42)
  if p.isEmpty then items else items.filter (fun k => bytesContains k p)

/-- The member loop of `SAdd::apply`: insert each member, counting the new
ones. -/
def saddFold (s : List (List Nat)) (ms : List (List Nat)) :
    List (List Nat) × Nat :=
  ms.foldl (fun p m =>
    let q := memberAdd p.1 m
    (q.1, p.2 + if q.2 then 1 else 0)) (s, 0)

/-- The member loop of `SRem::apply`: remove each member, counting the hits. -/
def sremFold (s : List (List Nat)) (ms : List (List Nat)) :
    List (List Nat) × Nat :=
  ms.foldl (fun p m =>
    let q := memberRemove p.1 m
    (q.1, p.2 + if q.2 then 1 else 0)) (s, 0)

/-- The element loop of `ZAdd::apply`: insert-or-update each member, counting
members that did not previously exist. -/
def zaddFold (z : List (Key × S)) (elems : List (S × Key)) :
    List (Key × S) × Nat :=
  elems.foldl (fun p e =>
    (assocPut p.1 e.2 e.1,
     p.2 + if (assocGet p.1 e.2).isNone then 1 else 0)) (z, 0)

/-- `Command::apply` (via each command struct's `apply` in `cmd.rs`): the new
store plus the frames written to the connection, one arm per source
function. -/
def applyCommand (E : Externs S J) (c : Command S) (db : Db S J) :
    Db S J × List Frame :=
  match c with
  | .get k =>          -- Get::apply
    match db.get k with
    | some v => (db, [.bulk v])
    | none => (db, [.null])
  | .set k v =>        -- Set::apply
    (db.set k v, [.simple (strBytes "OK")])
  | .del k =>          -- Del::apply
    let (db', deleted) := db.delete k
    (db', [.integer (if deleted then 1 else 0)])
  | .ping msg =>       -- Ping::apply
    match msg with
    | none => (db, [.simple (strBytes "PONG")])
    | some m => (db, [.bulk m])
  | .auth _ _ =>       -- Auth::apply
    (db, [.simple (strBytes "OK")])
  | .info _ =>         -- Info::apply
    (db, [.bulk (strBytes "role:master\r\nconnected_clients:1\r\nredis_version:0.1.0\r\n")])
  | .scan _ mp _ =>    -- Scan::apply (cursor ignored, always "0")
    let ks := db.keys
    let ks := match mp with
      | some pattern => retainContains ks pattern
      | none => ks
    (db, [.array [.bulk (strBytes "0"), .array (ks.map .bulk)]])
  | .keys pattern =>   -- Keys::apply
    let ks := db.keys
    let ks := if pattern = strBytes "*" then ks else retainContains ks pattern
    (db, [.array (ks.map .bulk)])
  | .typeCmd k =>      -- Type::apply
    let name := match db.getValue k with
      | some (.str _) => "string"
      | some (.list _) => "list"
      | some (.set _) => "set"
      | some (.hash _) => "hash"
      | some (.zset _) => "zset"
      | some (.json _) => "ReJSON-RL"
      | none => "none"
    (db, [.simple (strBytes name)])
  | .dbsize =>         -- DbSize::apply
    (db, [.integer db.size])
  | .flushdb =>        -- FlushDb::apply
    (db.clear, [.simple (strBytes "OK")])
  | .existsCmd k =>    -- Exists::apply
    (db, [.integer (if db.existsKey k then 1 else 0)])
  | .hset k f v =>     -- HSet::apply (always replies 1 on the hash path)
    match db.getValue k with
    | some (.hash h) => (db.setValue k (.hash (assocPut h f v)), [.integer 1])
    | none => (db.setValue k (.hash (assocPut [] f v)), [.integer 1])
    | some _ => (db, [.error wrongTypeMsg])
  | .hget k f =>       -- HGet::apply
    match db.getValue k with
    | some (.hash h) =>
      match assocGet h f with
      | some v => (db, [.bulk v])
      | none => (db, [.null])
    | some _ => (db, [.error wrongTypeMsg])
    | none => (db, [.null])
  | .hdel k f =>       -- HDel::apply (builds the hash back via set_value)
    match db.getValue k with
    | some (.hash h) =>
      let (h', removed) := assocRemove h f
      (db.setValue k (.hash h'), [.integer (if removed then 1 else 0)])
    | none => (db, [.integer 0])
    | some _ => (db, [.error wrongTypeMsg])
  | .hexists k f =>    -- HExists::apply
    match db.getValue k with
    | some (.hash h) =>
      (db, [.integer (if h.any (fun e => e.1 = f) then 1 else 0)])
    | none => (db, [.integer 0])
    | some _ => (db, [.error wrongTypeMsg])
  | .hgetall k =>      -- HGetAll::apply
    match db.getValue k with
    | some (.hash h) =>
      (db, [.array ((h.map (fun e => [Frame.bulk e.1, Frame.bulk e.2])).flatten)])
    | some _ => (db, [.error wrongTypeMsg])
    | none => (db, [.array []])
  | .hkeys k =>        -- HKeys::apply
    match db.getValue k with
    | some (.hash h) => (db, [.array (h.map (fun e => Frame.bulk e.1))])
    | none => (db, [.array []])
    | some _ => (db, [.error wrongTypeMsg])
  | .hvals k =>        -- HVals::apply
    match db.getValue k with
    | some (.hash h) => (db, [.array (h.map (fun e => Frame.bulk e.2))])
    | none => (db, [.array []])
    | some _ => (db, [.error wrongTypeMsg])
  | .hscan k _ mp _ => -- HScan::apply (cursor ignored, always "0")
    match db.getValue k with
    | some (.hash h) =>
      let fields := h.map (·.1)
      let fields := match mp with
        | some pattern => retainContains fields pattern
        | none => fields
      let kv := (fields.map (fun fld =>
        [Frame.bulk fld, Frame.bulk ((assocGet h fld).getD [])])).flatten
      (db, [.array [.bulk (strBytes "0"), .array kv]])
    | none => (db, [.array [.bulk (strBytes "0"), .array []]])
    | some _ => (db, [.error wrongTypeMsg])
  | .hlen k =>         -- HLen::apply
    match db.getValue k with
    | some (.hash h) => (db, [.integer h.length])
    | none => (db, [.integer 0])
    | some _ => (db, [.error wrongTypeMsg])
  | .lpush k vs =>     -- LPush::apply (each value inserted at index 0)
    match db.getValue k with
    | some (.list l) =>
      let l' := vs.foldl (fun acc v => v :: acc) l
      (db.setValue k (.list l'), [.integer l'.length])
    | none =>
      let l' := vs.foldl (fun acc v => v :: acc) []
      (db.setValue k (.list l'), [.integer l'.length])
    | some _ => (db, [.error wrongTypeMsg])
  | .rpush k vs =>     -- RPush::apply
    match db.getValue k with
    | some (.list l) =>
      (db.setValue k (.list (l ++ vs)), [.integer (l ++ vs).length])
    | none =>
      (db.setValue k (.list vs), [.integer vs.length])
    | some _ => (db, [.error wrongTypeMsg])
  | .lpop k =>         -- LPop::apply (stores the shortened list back, even empty)
    match db.getValue k with
    | some (.list l) =>
      match l with
      | [] => (db, [.null])
      | v :: rest => (db.setValue k (.list rest), [.bulk v])
    | none => (db, [.null])
    | some _ => (db, [.error wrongTypeMsg])
  | .rpop k =>         -- RPop::apply (stores the shortened list back, even empty)
    match db.getValue k with
    | some (.list l) =>
      match l.getLast? with
      | some v => (db.setValue k (.list l.dropLast), [.bulk v])
      | none => (db, [.null])
    | none => (db, [.null])
    | some _ => (db, [.error wrongTypeMsg])
  | .lrange k start stop => -- LRange::apply (clamps BOTH resolved indices at 0)
    match db.getValue k with
    | some (.list l) =>
      let len : Int := l.length
      let rstart := if start < 0 then len + start else start
      let rstop := if stop < 0 then len + stop else stop
      let s : Nat := (max rstart 0).toNat
      let t : Nat := (max rstop 0).toNat
      let frames :=
        if s < l.length then
          let t2 := min (t + 1) l.length
          if s < t2 then ((l.drop s).take (t2 - s)).map Frame.bulk else []
        else []
      (db, [.array frames])
    | none => (db, [.array []])
    | some _ => (db, [.error wrongTypeMsg])
  | .sadd k ms =>      -- SAdd::apply
    match db.getValue k with
    | some (.set s) =>
      let r := saddFold s ms
      (db.setValue k (.set r.1), [.integer r.2])
    | none =>
      let r := saddFold [] ms
      (db.setValue k (.set r.1), [.integer r.2])
    | some _ => (db, [.error wrongTypeMsg])
  | .smembers k =>     -- SMembers::apply
    match db.getValue k with
    | some (.set s) => (db, [.array (s.map .bulk)])
    | none => (db, [.array []])
    | some _ => (db, [.error wrongTypeMsg])
  | .srem k ms =>      -- SRem::apply (stores the set back even when emptied)
    match db.getValue k with
    | some (.set s) =>
      let r := sremFold s ms
      (db.setValue k (.set r.1), [.integer r.2])
    | none => (db, [.integer 0])
    | some _ => (db, [.error wrongTypeMsg])
  | .jsonSet k _ v =>  -- JsonSet::apply (the path is inspected but unused)
    match E.parseJson v with
    | none => (db, [.error (strBytes "ERR invalid json")])
    | some j => (db.setValue k (.json j), [.simple (strBytes "OK")])
  | .jsonGet k _ =>    -- JsonGet::apply (the path changes nothing)
    match db.getValue k with
    | some (.json j) => (db, [.bulk (E.renderJson j)])
    | none => (db, [.null])
    | some _ => (db, [.error wrongTypeMsg])
  | .zadd k elems =>   -- ZAdd::apply (note the short "WRONGTYPE" message)
    match db.getValue k with
    | some (.zset z) =>
      let r := zaddFold z elems
      (db.setValue k (.zset r.1), [.integer r.2])
    | none =>
      let r := zaddFold [] elems
      (db.setValue k (.zset r.1), [.integer r.2])
    | some _ => (db, [.error (strBytes "WRONGTYPE")])
  | .zrange k start stop => -- ZRange::apply (members only, no scores)
    match db.getValue k with
    | some (.zset z) =>
      let sorted := E.sortByScore z
      let len : Int := sorted.length
      let rstart := if start < 0 then len + start else start
      let rstop := if stop < 0 then len + stop else stop
      let s : Nat := (max rstart 0).toNat
      let t : Nat := (max rstop 0).toNat
      let frames :=
        if s < sorted.length then
          let t2 := min (t + 1) sorted.length
          if s < t2 then ((sorted.drop s).take (t2 - s)).map (fun e => Frame.bulk e.1)
          else []
        else []
      (db, [.array frames])
    | none => (db, [.array []])
    | some _ => (db, [.error (strBytes "WRONGTYPE")])
  | .ttl k =>          -- Ttl::apply
    (db, [.integer (if db.existsKey k then -1 else -2)])
  | .pttl k =>         -- Pttl::apply
    (db, [.integer (if db.existsKey k then -1 else -2)])
  | .select _ =>       -- Select::apply
    (db, [.simple (strBytes "OK")])
  | .unknown name =>   -- Unknown::apply
    (db, [.error (strBytes "ERR unknown command '" ++ name ++ [39])])

/-! ## The session dispatcher (`server.rs` `process`)

`process` matches the four transaction operations (`Command::Multi`,
`Command::Discard`, `Command::Watch`, `Command::Exec`) before handing any
other command to the queue-or-apply branch; `SessionCmd` models exactly that
dispatch granularity.  Frames written to the connection are collected in a
list; `Connection::start_array` (spec §4.2: write only the `*N CRLF` array
header) appears as a distinct output item. -/

/-- `server.rs` `TransactionState`. -/
structure TransactionState (S : Type) where
  queued : List (Command S)
  watched : List (Key × Nat)
  active : Bool

/-- One unit written to the connection: a whole frame
(`Connection::write_frame`) or a bare array header
(`Connection::start_array`). -/
inductive Sent where
  | frame (f : Frame)
  | arrayHeader (n : Nat)

/-- A command as dispatched by `process`: one of the four transaction
operations, or any other parsed command. -/
inductive SessionCmd (S : Type) where
  | multi
  | discard
  | watch (matchKeys : List Key)
  | exec
  | other (c : Command S)

/-- The EXEC drain: apply the queued commands in order, threading the store
and concatenating each command's written frames. -/
def applyQueue (E : Externs S J) : List (Command S) → Db S J → Db S J × List Frame
  | [], db => (db, [])
  | c :: cs, db =>
    let r1 := applyCommand E c db
    let r2 := applyQueue E cs r1.1
    (r2.1, r1.2 ++ r2.2)

/-- `WATCH`'s capture loop: for each key, drop any previous record for the
same key and push `(key, current shard version)`. -/
def captureWatches (db : Db S J) : List Key → List (Key × Nat) → List (Key × Nat)
  | [], w => w
  | k :: ks, w =>
    captureWatches db ks
      ((w.filter (fun e => e.1 ≠ k)) ++ [(k, db.version (db.shardOf k))])

/-- One iteration of the `process` loop in `server.rs`: route a parsed
command through the transaction state machine, yielding the new session
state, the new store and the output units written to the connection. -/
def processCmd (E : Externs S J) (st : TransactionState S) (db : Db S J) :
    SessionCmd S → TransactionState S × Db S J × List Sent
  | .multi =>
    if st.active then
      (st, db, [.frame (.error (strBytes "ERR MULTI calls can not be nested"))])
    else
      ({ st with active := true }, db, [.frame (.simple (strBytes "OK"))])
  | .discard =>
    if !st.active then
      (st, db, [.frame (.error (strBytes "ERR DISCARD without MULTI"))])
    else
      (⟨[], [], false⟩, db, [.frame (.simple (strBytes "OK"))])
  | .watch ks =>
    if st.active then
      (st, db, [.frame (.error (strBytes "ERR WATCH inside MULTI is not allowed"))])
    else
      ({ st with watched := captureWatches db ks st.watched }, db,
       [.frame (.simple (strBytes "OK"))])
  | .exec =>
    if !st.active then
      (st, db, [.frame (.error (strBytes "ERR EXEC without MULTI"))])
    else
      -- under the exclusive batch_lock: validate every watched pair
      if st.watched.all (fun w => db.version (db.shardOf w.1) = w.2) then
        let r := applyQueue E st.queued db
        (⟨[], [], false⟩, r.1, .arrayHeader st.queued.length :: r.2.map .frame)
      else
        (⟨[], [], false⟩, db, [.frame .null])
  | .other c =>
    if st.active then
      ({ st with queued := st.queued ++ [c] }, db,
       [.frame (.simple (strBytes "QUEUED"))])
    else
      -- under the shared batch_lock
      let r := applyCommand E c db
      (st, r.1, r.2.map .frame)

/-! ## Command parsing (`cmd.rs` `Parse` and `Command::from_frame`)

The `Parse` struct is an iterator over the elements of the received array
frame; its state is the list of not-yet-consumed elements.  `next_*` methods
consume one element even when they fail (the Rust iterator has advanced), so
every helper returns the error together with the advanced state. -/

/-- The remaining elements of the `Parse` iterator. -/
abbrev ParseSt := List Frame

/-- `Parse::next_string` applied to one frame: `Simple` passes through,
`Bulk` must be valid UTF-8. -/
def frameAsString : Frame → Except String (List Nat)
  | .simple s => .ok s
  | .bulk d =>
    if (utf8Decode d).isSome then .ok d
    else .error "protocol error; invalid string"
  | _ => .error "protocol error; expected simple frame or bulk frame"

/-- `Parse::next_bytes` applied to one frame. -/
def frameAsBytes : Frame → Except String (List Nat)
  | .simple s => .ok s
  | .bulk d => .ok d
  | _ => .error "protocol error; expected simple frame or bulk frame"

/-- The all-digits body of Rust's strict `str::parse` for unsigned integers:
the whole remainder must be one or more decimal digits. -/
def parseDigits (l : List Nat) : Option Nat :=
  if l ≠ [] ∧ l.all (fun c => isDigit c) then some (atoiLoop 0 l) else none

/-- Rust `str::parse::<i64>`: optional `+`/`-` sign, then digits only
(`i64` overflow is dropped by the unbounded model). -/
def parseI64 : List Nat → Option Int
  | 43 :: rest => (parseDigits rest).map Int.ofNat
  | 45 :: rest => (parseDigits rest).map (fun n => -(n : Int))
  | l => (parseDigits l).map Int.ofNat

/-- Rust `str::parse::<u64>` / `parse::<usize>`: optional `+` sign, then
digits only. -/
def parseU64 : List Nat → Option Nat
  | 43 :: rest => parseDigits rest
  | l => parseDigits l

/-- `Parse::next_int` applied to one frame. -/
def frameAsInt : Frame → Except String Int
  | .integer i => .ok i
  | .simple s =>
    match parseI64 s with
    | some i => .ok i
    | none => .error "protocol error; invalid integer"
  | .bulk d =>
    if (utf8Decode d).isSome then
      match parseI64 d with
      | some i => .ok i
      | none => .error "protocol error; invalid integer"
    else .error "protocol error; invalid utf8"
  | _ => .error "protocol error; expected integer"

/-- `Parse::next_string`. -/
def pNextString : ParseSt → Except String (List Nat) × ParseSt
  | [] => (.error "protocol error; unexpected end of frame", [])
  | f :: rest => (frameAsString f, rest)

/-- `Parse::next_bytes`. -/
def pNextBytes : ParseSt → Except String (List Nat) × ParseSt
  | [] => (.error "protocol error; unexpected end of frame", [])
  | f :: rest => (frameAsBytes f, rest)

/-- `Parse::next_int`. -/
def pNextInt : ParseSt → Except String Int × ParseSt
  | [] => (.error "protocol error; unexpected end of frame", [])
  | f :: rest => (frameAsInt f, rest)

/-- Sequence two parsing steps, propagating the first error (with the
already-advanced iterator state, as in Rust's `?`). -/
def pthen (r : Except String α × ParseSt)
    (f : α → ParseSt → Except String β × ParseSt) :
    Except String β × ParseSt :=
  match r with
  | (.ok a, st) => f a st
  | (.error e, st) => (.error e, st)

/-- Map over a successful parsing step. -/
def pmap (r : Except String α × ParseSt) (f : α → β) :
    Except String β × ParseSt :=
  (r.1.map f, r.2)

/-- The `while let Ok(val) = parse.next_bytes()` loops of `LPush`, `RPush`,
`SAdd` and `SRem`: drain values until `next_bytes` fails; the failing frame
(if any) has already been consumed. -/
def collectBytes : ParseSt → List (List Nat) × ParseSt
  | [] => ([], [])
  | f :: rest =>
    match frameAsBytes f with
    | .ok b =>
      let (bs, st') := collectBytes rest
      (b :: bs, st')
    | .error _ => ([], rest)

/-- ASCII lowercasing of one byte (`str::to_lowercase`; every command name
matched by `from_frame` is ASCII, and non-ASCII bytes pass through — Rust
also lowercases non-ASCII letters, which no match arm can ever equal). -/
def asciiLower (b : Nat) : Nat := if 65 ≤ b ∧ b ≤ 90 then b + 32 else b

/-- The option loop of `Scan::parse_frames` / `HScan::parse_frames`:
`while let Ok(arg) = parse.next_string()`, recognising `MATCH`/`COUNT`
(anything else is skipped) — `next_string` after the keyword propagates its
error through `?`. -/
def scanOpts : ParseSt → Option (List Nat) → Option Nat →
    Except String (Option (List Nat) × Option Nat) × ParseSt
  | [], mp, cnt => (.ok (mp, cnt), [])
  | f :: rest, mp, cnt =>
    match frameAsString f with
    | .error _ => (.ok (mp, cnt), rest)     -- loop ends; the frame is consumed
    | .ok arg =>
      if arg.map asciiLower = strBytes "match" then
        match rest with
        | [] => (.error "protocol error; unexpected end of frame", [])
        | g :: rest2 =>
          match frameAsString g with
          | .error e => (.error e, rest2)
          | .ok v => scanOpts rest2 (some v) cnt
      else if arg.map asciiLower = strBytes "count" then
        match rest with
        | [] => (.error "protocol error; unexpected end of frame", [])
        | g :: rest2 =>
          match frameAsString g with
          | .error e => (.error e, rest2)
          | .ok cs => scanOpts rest2 mp (some ((parseU64 cs).getD 10))
      else scanOpts rest mp cnt

/-- The `(score, member)` loop of `ZAdd::parse_frames`: the score ends the
loop when `next_string` fails, but a missing or non-string member propagates
an error through `?`.  An unparsable score falls back to `0.0`
(`unwrap_or`), absorbed by the total `pf`. -/
def zaddElems (pf : List Nat → S) : ParseSt →
    Except String (List (S × Key)) × ParseSt
  | [] => (.ok [], [])
  | f :: rest =>
    match frameAsString f with
    | .error _ => (.ok [], rest)            -- loop ends; the frame is consumed
    | .ok scoreStr =>
      match rest with
      | [] => (.error "protocol error; unexpected end of frame", [])
      | g :: rest2 =>
        match frameAsString g with
        | .error e => (.error e, rest2)
        | .ok member =>
          match zaddElems pf rest2 with
          | (.ok es, st') => (.ok ((pf scoreStr, member) :: es), st')
          | (.error e, st') => (.error e, st')

/-- `Parse::finish` after a command parser: any remaining element is a
protocol error. -/
def pFinish (r : Except String (Command S) × ParseSt) :
    Except String (Command S) :=
  match r with
  | (.error e, _) => .error e
  | (.ok c, st) =>
    if st.isEmpty then .ok c
    else .error "protocol error; expected end of frame"

/-- `ZRange::parse_frames`: exactly key, start, stop — any `WITHSCORES`
argument is left for `finish` to reject ("Ignore WITHSCORES for now"). -/
def ZRange.parseFrames (st : ParseSt) : Except String (Command S) × ParseSt :=
  pthen (pNextString st) fun k st =>
  pthen (pNextInt st) fun start st =>
  pmap (pNextInt st) fun stop => Command.zrange k start stop

/-- `Command::from_frame`: require an array frame, read and lowercase the
command name, delegate to the command's `parse_frames`, and (except for
unknown commands, which return early) demand that the array is exhausted.
The full frame of the non-array error message carries a `Debug` rendering of
the offending frame in the source, which the model omits. -/
def Command.fromFrame (pf : List Nat → S) (f : Frame) :
    Except String (Command S) :=
  match f with
  | .array parts =>
    match pNextString parts with
    | (.error e, _) => .error e
    | (.ok nameRaw, st) =>
      let name := nameRaw.map asciiLower
      if name = strBytes "get" then pFinish (pmap (pNextString st) Command.get)
      else if name = strBytes "set" then
        pFinish (pthen (pNextString st) fun k st =>
          pmap (pNextBytes st) (Command.set k))
      else if name = strBytes "del" then
        pFinish (pmap (pNextString st) Command.del)
      else if name = strBytes "ping" then
        pFinish (match pNextString st with
          | (.ok m, st') => (.ok (.ping (some m)), st')
          | (.error _, st') => (.ok (.ping none), st'))
      else if name = strBytes "auth" then
        pFinish (pthen (pNextString st) fun first st =>
          match pNextString st with
          | (.ok second, st') => (.ok (.auth second (some first)), st')
          | (.error _, st') => (.ok (.auth first none), st'))
      else if name = strBytes "info" then
        pFinish (match pNextString st with
          | (.ok s, st') => (.ok (.info (some s)), st')
          | (.error _, st') => (.ok (.info none), st'))
      else if name = strBytes "scan" then
        pFinish (pthen (pNextString st) fun cursorStr st =>
          pmap (scanOpts st none none) fun o =>
            Command.scan ((parseU64 cursorStr).getD 0) o.1 o.2)
      else if name = strBytes "keys" then
        pFinish (pmap (pNextString st) Command.keys)
      else if name = strBytes "type" then
        pFinish (pmap (pNextString st) Command.typeCmd)
      else if name = strBytes "dbsize" then pFinish (.ok .dbsize, st)
      else if name = strBytes "flushdb" then pFinish (.ok .flushdb, st)
      else if name = strBytes "exists" then
        pFinish (pmap (pNextString st) Command.existsCmd)
      else if name = strBytes "hset" then
        pFinish (pthen (pNextString st) fun k st =>
          pthen (pNextString st) fun fld st =>
          pmap (pNextBytes st) (Command.hset k fld))
      else if name = strBytes "hget" then
        pFinish (pthen (pNextString st) fun k st =>
          pmap (pNextString st) (Command.hget k))
      else if name = strBytes "hdel" then
        pFinish (pthen (pNextString st) fun k st =>
          pmap (pNextString st) (Command.hdel k))
      else if name = strBytes "hexists" then
        pFinish (pthen (pNextString st) fun k st =>
          pmap (pNextString st) (Command.hexists k))
      else if name = strBytes "hgetall" then
        pFinish (pmap (pNextString st) Command.hgetall)
      else if name = strBytes "hkeys" then
        pFinish (pmap (pNextString st) Command.hkeys)
      else if name = strBytes "hvals" then
        pFinish (pmap (pNextString st) Command.hvals)
      else if name = strBytes "hscan" then
        pFinish (pthen (pNextString st) fun k st =>
          pthen (pNextString st) fun cursorStr st =>
          pmap (scanOpts st none none) fun o =>
            Command.hscan k ((parseU64 cursorStr).getD 0) o.1 o.2)
      else if name = strBytes "hlen" then
        pFinish (pmap (pNextString st) Command.hlen)
      else if name = strBytes "lpush" then
        pFinish (pthen (pNextString st) fun k st =>
          let (vs, st') := collectBytes st
          (.ok (.lpush k vs), st'))
      else if name = strBytes "rpush" then
        pFinish (pthen (pNextString st) fun k st =>
          let (vs, st') := collectBytes st
          (.ok (.rpush k vs), st'))
      else if name = strBytes "lpop" then
        pFinish (pmap (pNextString st) Command.lpop)
      else if name = strBytes "rpop" then
        pFinish (pmap (pNextString st) Command.rpop)
      else if name = strBytes "lrange" then
        pFinish (pthen (pNextString st) fun k st =>
          pthen (pNextInt st) fun start st =>
          pmap (pNextInt st) fun stop => Command.lrange k start stop)
      else if name = strBytes "sadd" then
        pFinish (pthen (pNextString st) fun k st =>
          let (vs, st') := collectBytes st
          (.ok (.sadd k vs), st'))
      else if name = strBytes "smembers" then
        pFinish (pmap (pNextString st) Command.smembers)
      else if name = strBytes "srem" then
        pFinish (pthen (pNextString st) fun k st =>
          let (vs, st') := collectBytes st
          (.ok (.srem k vs), st'))
      else if name = strBytes "json.set" then
        pFinish (pthen (pNextString st) fun k st =>
          pthen (pNextString st) fun path st =>
          pmap (pNextString st) (Command.jsonSet k path))
      else if name = strBytes "json.get" then
        pFinish (pthen (pNextString st) fun k st =>
          match pNextString st with
          | (.ok p, st') => (.ok (.jsonGet k (some p)), st')
          | (.error _, st') => (.ok (.jsonGet k none), st'))
      else if name = strBytes "zadd" then
        pFinish (pthen (pNextString st) fun k st =>
          pmap (zaddElems pf st) (Command.zadd k))
      else if name = strBytes "zrange" then pFinish (ZRange.parseFrames st)
      else if name = strBytes "ttl" then
        pFinish (pmap (pNextString st) Command.ttl)
      else if name = strBytes "pttl" then
        pFinish (pmap (pNextString st) Command.pttl)
      else if name = strBytes "select" then
        pFinish (pmap (pNextInt st) Command.select)
      else .ok (.unknown name)
  | _ => .error "protocol error; expected array"

/-! ## Helper lemmas: lines, digits, prefixes -/

theorem checkFuel_cons (fuel : Nat) (c : Nat) (rest : List Nat) :
    checkFuel (fuel + 1) (c :: rest) = checkBody (checkFuel fuel) c rest := rfl

theorem parseFuel_cons (fuel : Nat) (c : Nat) (rest : List Nat) :
    parseFuel (fuel + 1) (c :: rest) = parseBody (parseFuel fuel) c rest := rfl

theorem lineFree_cons (a b : Nat) (t : List Nat) :
    lineFree (a :: b :: t) = (!(a = CR && b = LF) && lineFree (b :: t)) := rfl

/-- A prefix of a CRLF-free byte list is CRLF-free. -/
theorem lineFree_of_append (p t : List Nat) (h : lineFree (p ++ t) = true) :
    lineFree p = true := by
  induction p with
  | nil => rfl
  | cons a p ih =>
    cases p with
    | nil => rfl
    | cons b q =>
      rw [List.cons_append, List.cons_append, lineFree_cons] at h
      rw [lineFree_cons]
      simp only [Bool.and_eq_true] at h ⊢
      exact ⟨h.1, ih (by rw [List.cons_append]; exact h.2)⟩

theorem lineFree_of_prefix (l p : List Nat) (h : lineFree l = true)
    (hp : p <+: l) : lineFree p = true := by
  obtain ⟨t, rfl⟩ := hp
  exact lineFree_of_append p t h

/-- Appending a lone CR cannot create a CR LF pair. -/
theorem lineFree_append_CR (l : List Nat) (h : lineFree l = true) :
    lineFree (l ++ [CR]) = true := by
  induction l with
  | nil => rfl
  | cons a l ih =>
    cases l with
    | nil =>
      show lineFree [a, CR] = true
      rw [lineFree_cons, Bool.and_eq_true]
      exact ⟨by simp [CR, LF], rfl⟩
    | cons b q =>
      rw [lineFree_cons] at h
      simp only [Bool.and_eq_true] at h
      show lineFree (a :: b :: (q ++ [CR])) = true
      rw [lineFree_cons]
      simp only [Bool.and_eq_true]
      exact ⟨h.1, ih h.2⟩

/-- A list without CR bytes is CRLF-free. -/
theorem lineFree_of_no_CR (l : List Nat) (h : ∀ c ∈ l, c ≠ CR) :
    lineFree l = true := by
  induction l with
  | nil => rfl
  | cons a l ih =>
    cases l with
    | nil => rfl
    | cons b q =>
      rw [lineFree_cons]
      simp only [Bool.and_eq_true]
      refine ⟨?_, ih (fun c hc => h c (List.mem_cons_of_mem a hc))⟩
      have := h a (List.mem_cons_self a _)
      simp [this]

/-- `get_line` finds nothing in a CRLF-free buffer. -/
theorem getLine_none (l : List Nat) (h : lineFree l = true) :
    getLine l = none := by
  induction l with
  | nil => rfl
  | cons a l ih =>
    have hab : ¬(a = CR ∧ l.head? = some LF) := by
      cases l with
      | nil => simp
      | cons b q =>
        rw [lineFree_cons] at h
        simp only [Bool.and_eq_true] at h
        simp only [List.head?_cons, Option.some.injEq]
        intro ⟨h1, h2⟩
        have := h.1
        simp [h1, h2] at this
    have hlf : lineFree l = true := by
      cases l with
      | nil => rfl
      | cons b q =>
        rw [lineFree_cons] at h
        simp only [Bool.and_eq_true] at h
        exact h.2
    rw [getLine, if_neg hab, ih hlf]
    rfl

/-- `get_line` splits at the first CR LF pair: a CRLF-free line followed by
the terminator, whatever comes after. -/
theorem getLine_split (l : List Nat) (h : lineFree l = true) (r : List Nat) :
    getLine (l ++ CR :: LF :: r) = some (l, r) := by
  induction l with
  | nil =>
    rw [List.nil_append, getLine]
    simp
  | cons a l ih =>
    rw [List.cons_append]
    have hcond : ¬(a = CR ∧ (l ++ CR :: LF :: r).head? = some LF) := by
      cases l with
      | nil =>
        simp only [List.nil_append, List.head?_cons, Option.some.injEq]
        intro ⟨_, h2⟩
        exact absurd h2 (by decide)
      | cons b q =>
        rw [lineFree_cons] at h
        simp only [Bool.and_eq_true] at h
        simp only [List.cons_append, List.head?_cons, Option.some.injEq]
        intro ⟨h1, h2⟩
        have := h.1
        simp [h1, h2] at this
    have hlf : lineFree l = true := by
      cases l with
      | nil => rfl
      | cons b q =>
        rw [lineFree_cons] at h
        simp only [Bool.and_eq_true] at h
        exact h.2
    rw [getLine, if_neg hcond, ih hlf]
    rfl

/-- Splitting a prefix of an append at the boundary. -/
theorem prefix_split {p a b : List Nat} (h : p <+: a ++ b) :
    p <+: a ∨ ∃ q, p = a ++ q ∧ q <+: b := by
  by_cases hle : p.length ≤ a.length
  · exact Or.inl (List.prefix_of_prefix_length_le h (List.prefix_append a b)
      (by simpa using hle))
  · right
    have hap : a <+: p :=
      List.prefix_of_prefix_length_le (List.prefix_append a b) h
        (by omega)
    obtain ⟨q, rfl⟩ := hap
    refine ⟨q, rfl, ?_⟩
    obtain ⟨t, ht⟩ := h
    rw [List.append_assoc] at ht
    exact ⟨t, (List.append_cancel_left ht : q ++ t = b)⟩

/-! Digit rendering and `atoi` round-trips. -/

theorem natAsciiAux_digits :
    ∀ fuel n, n < fuel → ∀ c ∈ natAsciiAux fuel n, isDigit c = true := by
  intro fuel
  induction fuel with
  | zero => intro n h; omega
  | succ fuel ih =>
    intro n _ c hc
    rw [natAsciiAux] at hc
    by_cases hn : n < 10
    · rw [if_pos hn] at hc
      simp only [List.mem_singleton] at hc
      subst hc
      simp [isDigit]
      omega
    · rw [if_neg hn] at hc
      rcases List.mem_append.1 hc with h1 | h2
      · exact ih (n / 10) (by omega) c h1
      · simp only [List.mem_singleton] at h2
        subst h2
        simp [isDigit]
        omega

theorem natAscii_digits (n : Nat) : ∀ c ∈ natAscii n, isDigit c = true :=
  natAsciiAux_digits (n + 1) n (Nat.lt_succ_self n)

theorem isDigit_ne_CR {c : Nat} (h : isDigit c = true) : c ≠ CR := by
  simp only [isDigit, decide_eq_true_eq] at h
  simp [CR]; omega

theorem natAscii_lineFree (n : Nat) : lineFree (natAscii n) = true :=
  lineFree_of_no_CR _ (fun c hc => isDigit_ne_CR (natAscii_digits n c hc))

theorem natAsciiAux_ne_nil :
    ∀ fuel n, n < fuel → natAsciiAux fuel n ≠ [] := by
  intro fuel
  induction fuel with
  | zero => intro n h; omega
  | succ fuel _ =>
    intro n _
    rw [natAsciiAux]
    by_cases hn : n < 10
    · rw [if_pos hn]; simp
    · rw [if_neg hn]; simp

theorem natAscii_ne_nil (n : Nat) : natAscii n ≠ [] :=
  natAsciiAux_ne_nil (n + 1) n (Nat.lt_succ_self n)

theorem atoiLoop_append (l : List Nat) (h : ∀ c ∈ l, isDigit c = true) :
    ∀ m acc, atoiLoop acc (l ++ m) = atoiLoop (atoiLoop acc l) m := by
  induction l with
  | nil => intro m acc; rfl
  | cons c l ih =>
    intro m acc
    have hc : isDigit c = true := h c (List.mem_cons_self c l)
    rw [List.cons_append, atoiLoop, if_pos hc, atoiLoop, if_pos hc]
    exact ih (fun d hd => h d (List.mem_cons_of_mem c hd)) m _

theorem atoiLoop_natAsciiAux :
    ∀ fuel n acc, n < fuel →
      atoiLoop acc (natAsciiAux fuel n) =
        acc * 10 ^ (natAsciiAux fuel n).length + n := by
  intro fuel
  induction fuel with
  | zero => intro n acc h; omega
  | succ fuel ih =>
    intro n acc _
    rw [natAsciiAux]
    by_cases hn : n < 10
    · rw [if_pos hn]
      rw [atoiLoop, if_pos (by simp [isDigit]; omega), atoiLoop]
      simp only [List.length_cons, List.length_nil, pow_one]
      omega
    · rw [if_neg hn]
      have hdig := natAsciiAux_digits fuel (n / 10) (by omega)
      rw [atoiLoop_append _ hdig, ih (n / 10) acc (by omega)]
      have h10 : isDigit (48 + n % 10) = true := by simp [isDigit]; omega
      rw [atoiLoop, if_pos h10, atoiLoop]
      have h1 : 48 + n % 10 - 48 = n % 10 := by omega
      have h2 : n / 10 * 10 + n % 10 = n := by omega
      have h3 : (natAsciiAux fuel (n / 10) ++ [48 + n % 10]).length
          = (natAsciiAux fuel (n / 10)).length + 1 := by simp
      rw [h1, h3, pow_succ]
      calc (acc * 10 ^ (natAsciiAux fuel (n / 10)).length + n / 10) * 10 + n % 10
          = acc * (10 ^ (natAsciiAux fuel (n / 10)).length * 10)
            + (n / 10 * 10 + n % 10) := by ring
        _ = acc * (10 ^ (natAsciiAux fuel (n / 10)).length * 10) + n := by rw [h2]

theorem atoiNat_natAscii (n : Nat) : atoiNat (natAscii n) = some n := by
  obtain ⟨c, t, hct⟩ : ∃ c t, natAscii n = c :: t := by
    cases h : natAscii n with
    | nil => exact absurd h (natAscii_ne_nil n)
    | cons c t => exact ⟨c, t, rfl⟩
  have hc : isDigit c = true := natAscii_digits n c (by rw [hct]; simp)
  have hloop : atoiLoop 0 (natAscii n) = n := by
    have := atoiLoop_natAsciiAux (n + 1) n 0 (Nat.lt_succ_self n)
    simpa [natAscii] using this
  rw [hct, atoiNat, if_pos hc]
  have : atoiLoop (c - 48) t = n := by
    rw [hct, atoiLoop, if_pos hc] at hloop
    simpa using hloop
  rw [this]

/-- `atoiInt` on a digit-led slice is the unsigned parse. -/
theorem atoiInt_of_head_digit (c : Nat) (t : List Nat) (hc : isDigit c = true) :
    atoiInt (c :: t) = (atoiNat (c :: t)).map Int.ofNat := by
  have h43 : c ≠ 43 := by
    simp only [isDigit, decide_eq_true_eq] at hc; omega
  have h45 : c ≠ 45 := by
    simp only [isDigit, decide_eq_true_eq] at hc; omega
  rw [atoiInt.eq_def]
  split
  next heq => exact absurd (List.cons.injEq .. ▸ heq : _ ∧ _).1 h43
  next heq => exact absurd (List.cons.injEq .. ▸ heq : _ ∧ _).1 h45
  next => rfl

theorem atoiInt_intAscii_isSome (i : Int) : (atoiInt (intAscii i)).isSome = true := by
  rw [intAscii]
  by_cases hi : i < 0
  · rw [if_pos hi, atoiInt, atoiNat_natAscii]
    rfl
  · rw [if_neg hi]
    obtain ⟨c, t, hct⟩ : ∃ c t, natAscii i.toNat = c :: t := by
      cases h : natAscii i.toNat with
      | nil => exact absurd h (natAscii_ne_nil _)
      | cons c t => exact ⟨c, t, rfl⟩
    have hc : isDigit c = true := natAscii_digits _ c (by rw [hct]; simp)
    rw [hct, atoiInt_of_head_digit c t hc, ← hct, atoiNat_natAscii]
    rfl

/-! ## C10: lenient bulk-frame termination -/

/-- `check` on a `$`-frame with arbitrary trailing two bytes, any fuel. -/
theorem checkFuel_bulk (fuel : Nat) (b : List Nat) (x y : Nat) :
    checkFuel (fuel + 1) (36 :: (natAscii b.length ++ [CR, LF] ++ b ++ [x, y])) =
      .ok [] := by
  obtain ⟨c, t, hct⟩ : ∃ c t, natAscii b.length = c :: t := by
    cases h : natAscii b.length with
    | nil => exact absurd h (natAscii_ne_nil _)
    | cons c t => exact ⟨c, t, rfl⟩
  have hc : isDigit c = true := natAscii_digits _ c (by rw [hct]; simp)
  have h45 : ¬(c = 45) := by
    simp only [isDigit, decide_eq_true_eq] at hc; omega
  have hre : natAscii b.length ++ [CR, LF] ++ b ++ [x, y] =
      natAscii b.length ++ CR :: LF :: (b ++ [x, y]) := by
    simp [List.append_assoc]
  rw [checkFuel_cons]
  unfold checkBody
  norm_num
  rw [hct]
  simp only [List.cons_append]
  rw [if_neg h45, ← List.cons_append, ← hct]
  rw [getLine_split _ (natAscii_lineFree _)]
  dsimp only
  rw [atoiNat_natAscii]
  dsimp only
  have hlen : b.length + 2 ≤ (b ++ [x, y]).length := by simp
  rw [if_pos hlen]
  have h2 : (b ++ [x, y]).length = b.length + 2 := by simp
  rw [show b.length + 2 = (b ++ [x, y]).length from h2.symm, List.drop_length]

/-- `parse` on the same buffer, any fuel. -/
theorem parseFuel_bulk (fuel : Nat) (b : List Nat) (x y : Nat) :
    parseFuel (fuel + 1) (36 :: (natAscii b.length ++ [CR, LF] ++ b ++ [x, y])) =
      .ok (.bulk b) [] := by
  obtain ⟨c, t, hct⟩ : ∃ c t, natAscii b.length = c :: t := by
    cases h : natAscii b.length with
    | nil => exact absurd h (natAscii_ne_nil _)
    | cons c t => exact ⟨c, t, rfl⟩
  have hc : isDigit c = true := natAscii_digits _ c (by rw [hct]; simp)
  have h45 : ¬(c = 45) := by
    simp only [isDigit, decide_eq_true_eq] at hc; omega
  have hre : natAscii b.length ++ [CR, LF] ++ b ++ [x, y] =
      natAscii b.length ++ CR :: LF :: (b ++ [x, y]) := by
    simp [List.append_assoc]
  rw [parseFuel_cons]
  unfold parseBody
  norm_num
  rw [hct]
  simp only [List.cons_append]
  rw [if_neg h45, ← List.cons_append, ← hct]
  rw [getLine_split _ (natAscii_lineFree _)]
  dsimp only
  rw [atoiNat_natAscii]
  dsimp only
  have hlen : b.length + 2 ≤ (b ++ [x, y]).length := by simp
  rw [if_pos hlen]
  have hl2 : (b ++ [x, y]).length = b.length + 2 := by simp
  rw [show b.length + 2 = (b ++ [x, y]).length from hl2.symm, List.drop_length]
  rw [List.take_left b [x, y]]

/-- C10: for every byte payload `b` of length `n`, both `check` and `parse`
accept `$n CRLF`, the `n` payload bytes, and ANY two further bytes — the
trailing two bytes are skipped without being compared to CR LF — and `parse`
returns `Bulk b`; a mis-terminated bulk frame is consumed successfully, not
rejected as Invalid. -/
theorem c10_bulk_skips_terminator (b : List Nat) (x y : Nat) :
    Frame.check (36 :: (natAscii b.length ++ [CR, LF] ++ b ++ [x, y])) = .ok [] ∧
    Frame.parse (36 :: (natAscii b.length ++ [CR, LF] ++ b ++ [x, y])) =
      .ok (.bulk b) [] := by
  constructor
  · rw [Frame.check]
    exact checkFuel_bulk _ b x y
  · rw [Frame.parse]
    exact parseFuel_bulk _ b x y

/-! ## Helper lemmas: association lists and the store -/

theorem assocGet_put_self (l : List (Key × α)) (k : Key) (v : α) :
    assocGet (assocPut l k v) k = some v := by
  induction l with
  | nil => simp [assocPut, assocGet]
  | cons e rest ih =>
    rw [assocPut]
    by_cases he : e.1 = k
    · rw [if_pos he, assocGet, if_pos rfl]
    · rw [if_neg he, assocGet, if_neg he, ih]

theorem assocPut_eq_self (l : List (Key × α)) (k : Key) (v : α)
    (h : assocGet l k = some v) : assocPut l k v = l := by
  induction l with
  | nil => simp [assocGet] at h
  | cons e rest ih =>
    rw [assocGet] at h
    rw [assocPut]
    by_cases he : e.1 = k
    · rw [if_pos he] at h
      rw [if_pos he]
      obtain ⟨e1, e2⟩ := e
      simp only at he
      simp only [Option.some.injEq] at h
      rw [he, h]
    · rw [if_neg he] at h
      rw [if_neg he, ih h]

theorem Db.getValue_setValue_self (db : Db S J) (k : Key) (v : DataType S J) :
    (db.setValue k v).getValue k = some v := by
  simp only [Db.setValue, Db.getValue]
  exact assocGet_put_self _ _ _

theorem Db.setValue_version_self (db : Db S J) (k : Key) (v : DataType S J) :
    (db.setValue k v).version (db.shardOf k) = db.version (db.shardOf k) + 1 := by
  simp [Db.setValue, Db.bumpVersion]

/-- Shared externals over `Unit` score and JSON types, for concrete
instances. -/
def unitExterns : Externs Unit Unit := ⟨fun _ => (), fun _ => none, fun _ => [], fun l => l⟩

/-! ## C2: FLUSHDB and the shard version counters -/

/-- C2 (divergence witness): `FlushDb::apply` calls `Db::clear`, which drains
every shard but never calls `increment_version`; so after FLUSHDB every key
is indeed absent, yet EVERY shard's version counter is exactly what it was
before — not strictly greater, as the claim states. -/
theorem c2_flushdb_clears_without_bumping_versions {S J : Type}
    (E : Externs S J) (db : Db S J) :
    (applyCommand E .flushdb db).1.entries = [] ∧
    (∀ k, (applyCommand E .flushdb db).1.getValue k = none) ∧
    (∀ i, (applyCommand E .flushdb db).1.version i = db.version i) ∧
    (applyCommand E .flushdb db).2 = [.simple (strBytes "OK")] :=
  ⟨rfl, fun _ => rfl, fun _ => rfl, rfl⟩

/-! ## C3: HSET's integer reply -/

/-- A store holding the hash `{f ↦ "0"}` under key `"k"`. -/
def c3db : Db Unit Unit := ⟨fun _ => 0, [([107], .hash [([102], [48])])], fun _ => 0⟩

/-- C3 (counterexample): with field `[102]` already present in the hash at
key `[107]`, both `Db::hset` and `HSet::apply` still answer 1 — the claim
demands 0 on replacement. -/
theorem c3_hset_replace_returns_one :
    c3db.getValue [107] = some (.hash [([102], [48])]) ∧
    (Db.hset c3db [107] [102] [49]).2 = 1 ∧
    (applyCommand unitExterns (.hset [107] [102] [49]) c3db).2 = [.integer 1] :=
  ⟨rfl, rfl, rfl⟩

/-- C3 (amended): `hset(k,f,v)` creates an empty hash when `k` is absent and
stores `v` under `f`; its integer result is 1 whenever the key was absent or
held a hash — including when it replaces an existing field's value — and
`Db::hset` answers 0 (leaving the store unchanged) only when the key holds a
value of another family, where `HSet::apply` replies WRONGTYPE instead. -/
theorem c3_hset_amended {S J : Type} (E : Externs S J) (db : Db S J)
    (k f v : List Nat) :
    (db.getValue k = none →
      (Db.hset db k f v).2 = 1 ∧
      (Db.hset db k f v).1.getValue k = some (.hash [(f, v)]) ∧
      (applyCommand E (.hset k f v) db).2 = [.integer 1] ∧
      (applyCommand E (.hset k f v) db).1.getValue k = some (.hash [(f, v)])) ∧
    (∀ h, db.getValue k = some (.hash h) →
      (Db.hset db k f v).2 = 1 ∧
      (Db.hset db k f v).1.getValue k = some (.hash (assocPut h f v)) ∧
      (applyCommand E (.hset k f v) db).2 = [.integer 1] ∧
      (applyCommand E (.hset k f v) db).1.getValue k =
        some (.hash (assocPut h f v))) ∧
    (∀ d, db.getValue k = some d → (∀ h', d ≠ .hash h') →
      Db.hset db k f v = (db, 0) ∧
      (applyCommand E (.hset k f v) db).2 = [.error wrongTypeMsg]) := by
  refine ⟨?_, ?_, ?_⟩
  · intro hnone
    have hget : assocGet db.entries k = none := hnone
    constructor
    · rw [Db.hset, hget]
    constructor
    · rw [Db.hset, hget]
      exact assocGet_put_self _ _ _
    constructor
    · show (match db.getValue k with
        | some (.hash h) => (db.setValue k (.hash (assocPut h f v)), [Frame.integer 1])
        | none => (db.setValue k (.hash (assocPut [] f v)), [Frame.integer 1])
        | some _ => (db, [.error wrongTypeMsg])).2 = [Frame.integer 1]
      rw [hnone]
    · show (match db.getValue k with
        | some (.hash h) => (db.setValue k (.hash (assocPut h f v)), [Frame.integer 1])
        | none => (db.setValue k (.hash (assocPut [] f v)), [Frame.integer 1])
        | some _ => (db, [.error wrongTypeMsg])).1.getValue k =
          some (.hash [(f, v)])
      rw [hnone]
      exact Db.getValue_setValue_self db k _
  · intro h hh
    have hget : assocGet db.entries k = some (.hash h) := hh
    constructor
    · rw [Db.hset, hget]
    constructor
    · rw [Db.hset, hget]
      exact assocGet_put_self _ _ _
    constructor
    · show (match db.getValue k with
        | some (.hash h) => (db.setValue k (.hash (assocPut h f v)), [Frame.integer 1])
        | none => (db.setValue k (.hash (assocPut [] f v)), [Frame.integer 1])
        | some _ => (db, [.error wrongTypeMsg])).2 = [Frame.integer 1]
      rw [hh]
    · show (match db.getValue k with
        | some (.hash h) => (db.setValue k (.hash (assocPut h f v)), [Frame.integer 1])
        | none => (db.setValue k (.hash (assocPut [] f v)), [Frame.integer 1])
        | some _ => (db, [.error wrongTypeMsg])).1.getValue k =
          some (.hash (assocPut h f v))
      rw [hh]
      exact Db.getValue_setValue_self db k _
  · intro d hd hne
    have hget : assocGet db.entries k = some d := hd
    constructor
    · rw [Db.hset, hget]
      cases d with
      | hash h' => exact absurd rfl (hne h')
      | str b => rfl
      | list l => rfl
      | set s => rfl
      | zset z => rfl
      | json j => rfl
    · show (match db.getValue k with
        | some (.hash h) => (db.setValue k (.hash (assocPut h f v)), [Frame.integer 1])
        | none => (db.setValue k (.hash (assocPut [] f v)), [Frame.integer 1])
        | some _ => (db, [.error wrongTypeMsg])).2 = [.error wrongTypeMsg]
      rw [hd]
      cases d with
      | hash h' => exact absurd rfl (hne h')
      | str b => rfl
      | list l => rfl
      | set s => rfl
      | zset z => rfl
      | json j => rfl

/-- C3 (witness): the amended statement applied to an empty store. -/
theorem c3_hset_amended_witness :
    (Db.hset (⟨fun _ => 0, [], fun _ => 0⟩ : Db Unit Unit) [107] [102] [49]).2 = 1 ∧
    (Db.hset (⟨fun _ => 0, [], fun _ => 0⟩ : Db Unit Unit) [107] [102] [49]).1.getValue [107] =
      some (.hash [([102], [49])]) ∧
    (applyCommand unitExterns (.hset [107] [102] [49])
      (⟨fun _ => 0, [], fun _ => 0⟩ : Db Unit Unit)).2 = [.integer 1] ∧
    (applyCommand unitExterns (.hset [107] [102] [49])
      (⟨fun _ => 0, [], fun _ => 0⟩ : Db Unit Unit)).1.getValue [107] =
      some (.hash [([102], [49])]) :=
  (c3_hset_amended unitExterns ⟨fun _ => 0, [], fun _ => 0⟩ [107] [102] [49]).1 rfl

/-! ## C4: empty containers after the last removal -/

/-- A store holding the one-element list `["v"]` under key `"k"`. -/
def c4dbL : Db Unit Unit := ⟨fun _ => 0, [([107], .list [[118]])], fun _ => 0⟩

/-- A store holding the one-member set `{"m"}` under key `"s"`. -/
def c4dbS : Db Unit Unit := ⟨fun _ => 0, [([115], .set [[109]])], fun _ => 0⟩

/-- C4 (divergence witness): the command layer (`LPop::apply`, `RPop::apply`,
`SRem::apply`) stores the emptied container back via `set_value`, so after
removing the last element the key is still present, holding an empty list or
set, and TYPE reports `list`/`set` — while the (uncalled) `Db::lpop` and
`Db::srem` of `db.rs` do remove the key as the claim describes. -/
theorem c4_emptied_containers_stay_stored :
    (applyCommand unitExterns (.lpop [107]) c4dbL).1.existsKey [107] = true ∧
    (applyCommand unitExterns (.lpop [107]) c4dbL).1.getValue [107] =
      some (.list []) ∧
    (applyCommand unitExterns (.typeCmd [107])
      (applyCommand unitExterns (.lpop [107]) c4dbL).1).2 =
      [.simple (strBytes "list")] ∧
    (applyCommand unitExterns (.rpop [107]) c4dbL).1.getValue [107] =
      some (.list []) ∧
    (applyCommand unitExterns (.srem [115] [[109]]) c4dbS).1.existsKey [115] = true ∧
    (applyCommand unitExterns (.srem [115] [[109]]) c4dbS).1.getValue [115] =
      some (.set []) ∧
    (applyCommand unitExterns (.typeCmd [115])
      (applyCommand unitExterns (.srem [115] [[109]]) c4dbS).1).2 =
      [.simple (strBytes "set")] ∧
    (Db.lpop c4dbL [107]).1.existsKey [107] = false ∧
    (Db.rpop c4dbL [107]).1.existsKey [107] = false ∧
    (Db.srem c4dbS [115] [109]).1.existsKey [115] = false :=
  ⟨rfl, rfl, rfl, rfl, rfl, rfl, rfl, rfl, rfl, rfl⟩

/-! ## C5: LRANGE index resolution -/

/-- A store holding the list `["a", "b"]` under key `"k"`. -/
def c5db : Db Unit Unit := ⟨fun _ => 0, [([107], .list [[97], [98]])], fun _ => 0⟩

/-- C5 (counterexample): `LRANGE k 0 -5` on the two-element list `["a","b"]`
resolves `stop` to `-3`; the claim requires the empty list, but the executed
`LRange::apply` clamps the resolved stop UP to 0 and returns `["a"]`, while
the (uncalled) `Db::lrange` wraps `-3` through the `as usize` cast and
returns the whole list. -/
theorem c5_lrange_negative_stop_not_empty :
    (applyCommand unitExterns (.lrange [107] 0 (-5)) c5db).2 =
      [.array [.bulk [97]]] ∧
    Db.lrange c5db [107] 0 (-5) = [[97], [98]] :=
  ⟨rfl, rfl⟩

/-- C5 (amended): `LRange::apply` resolves a negative index `i` to `n + i`,
then clamps BOTH resolved indices from below at 0 (a stop that is still
negative after adding `n` behaves like stop = 0 instead of yielding an empty
result) and from above at the list end, and returns the inclusive slice —
equivalently, `(l.take (stop' + 1)).drop start'` on the clamped indices, which
is empty whenever `start' > stop'` for in-range indices.  In particular
`LRANGE k 0 stop` with `n + stop < 0` on a non-empty list returns the FIRST
element, not the empty array. -/
theorem c5_lrange_amended {S J : Type} (E : Externs S J) (db : Db S J)
    (k : List Nat) (start stop : Int) (l : List (List Nat))
    (hl : db.getValue k = some (.list l)) :
    (applyCommand E (.lrange k start stop) db).2 =
      [.array (((l.take
          (((max (if stop < 0 then (l.length : Int) + stop else stop) 0).toNat) + 1)).drop
          ((max (if start < 0 then (l.length : Int) + start else start) 0).toNat)).map
        Frame.bulk)] ∧
    (l ≠ [] → start = 0 → (l.length : Int) + stop < 0 → stop < 0 →
      (applyCommand E (.lrange k start stop) db).2 = [.array [.bulk (l.headI)]]) := by
  have harm : (applyCommand E (.lrange k start stop) db).2 =
      (match db.getValue k with
        | some (.list l) =>
          let len : Int := l.length
          let rstart := if start < 0 then len + start else start
          let rstop := if stop < 0 then len + stop else stop
          let s : Nat := (max rstart 0).toNat
          let t : Nat := (max rstop 0).toNat
          let frames :=
            if s < l.length then
              let t2 := min (t + 1) l.length
              if s < t2 then ((l.drop s).take (t2 - s)).map Frame.bulk else []
            else []
          (db, ([.array frames] : List Frame))
        | none => (db, [.array []])
        | some _ => (db, [.error wrongTypeMsg])).2 := rfl
  rw [harm, hl]
  set s : Nat := (max (if start < 0 then (l.length : Int) + start else start) 0).toNat with hs
  set t : Nat := (max (if stop < 0 then (l.length : Int) + stop else stop) 0).toNat with ht
  have hslice :
      (if s < l.length then
        (if s < min (t + 1) l.length then
          ((l.drop s).take (min (t + 1) l.length - s)).map Frame.bulk else [])
       else []) = ((l.take (t + 1)).drop s).map Frame.bulk := by
    by_cases h1 : s < l.length
    · rw [if_pos h1]
      by_cases h2 : s < min (t + 1) l.length
      · rw [if_pos h2]
        congr 1
        rw [List.drop_take (t + 1) s l]
        by_cases h3 : t + 1 ≤ l.length
        · rw [min_eq_left h3]
        · rw [min_eq_right (le_of_not_le h3)]
          have e1 : (l.drop s).take (l.length - s) = l.drop s :=
            List.take_of_length_le (by simp)
          have e2 : (l.drop s).take (t + 1 - s) = l.drop s :=
            List.take_of_length_le (by simp; omega)
          rw [e1, e2]
      · rw [if_neg h2]
        have : (l.take (t + 1)).length ≤ s := by
          simp only [List.length_take]
          omega
        rw [List.drop_eq_nil_of_le this]
        rfl
    · rw [if_neg h1]
      have : (l.take (t + 1)).length ≤ s := by
        simp only [List.length_take]
        omega
      rw [List.drop_eq_nil_of_le this]
      rfl
  constructor
  · simp only []
    rw [hslice]
  · intro hne hstart hneg hstop
    simp only []
    rw [hslice]
    have hs0 : s = 0 := by
      rw [hs, hstart]
      simp
    have ht0 : t = 0 := by
      rw [ht, if_pos hstop]
      have : max ((l.length : Int) + stop) 0 = 0 := by omega
      rw [this]
      rfl
    rw [hs0, ht0]
    cases l with
    | nil => exact absurd rfl hne
    | cons a l' => rfl

/-- C5 (witness): the amended statement applied to the concrete store. -/
theorem c5_lrange_amended_witness :
    (applyCommand unitExterns (.lrange [107] 0 (-5)) c5db).2 =
      [.array ((([[97], [98]].take 1).drop 0).map Frame.bulk)] ∧
    (applyCommand unitExterns (.lrange [107] 0 (-5)) c5db).2 =
      [.array [.bulk ([[97], [98]].headI)]] := by
  have h := c5_lrange_amended unitExterns c5db [107] 0 (-5) [[97], [98]] rfl
  exact ⟨by simpa using h.1, h.2 (by decide) rfl (by decide) (by decide)⟩

/-! ## C8: KEYS pattern matching -/

theorem startsWith_iff (p l : List Nat) : startsWith l p = true ↔ p <+: l := by
  induction p generalizing l with
  | nil =>
    cases l <;> simp [startsWith]
  | cons b u ih =>
    cases l with
    | nil => simp [startsWith]
    | cons a t =>
      rw [startsWith]
      simp only [Bool.and_eq_true, decide_eq_true_eq, List.cons_prefix_cons, ih]
      constructor
      · intro ⟨h1, h2⟩; exact ⟨h1.symm, h2⟩
      · intro ⟨h1, h2⟩; exact ⟨h1.symm, h2⟩

theorem bytesContains_iff (hay pat : List Nat) :
    bytesContains hay pat = true ↔ pat <:+: hay := by
  induction hay with
  | nil =>
    simp [bytesContains, List.isEmpty_iff, List.infix_nil]
  | cons a t ih =>
    rw [bytesContains]
    simp only [Bool.or_eq_true, startsWith_iff, ih]
    exact (List.infix_cons_iff).symm

/-- A store holding only the key `"ab"`. -/
def c8db : Db Unit Unit := ⟨fun _ => 0, [([97, 98], .str [120])], fun _ => 0⟩

/-- C8 (counterexample): the pattern `"a"` is neither `"*"` nor equal to the
stored key `"ab"`, yet KEYS returns `"ab"` — matching is substring
containment, not exact equality. -/
theorem c8_keys_substring_match :
    (applyCommand unitExterns (.keys [97]) c8db).2 = [.array [.bulk [97, 98]]] ∧
    [97] ≠ strBytes "*" ∧ ([97, 98] : List Nat) ≠ [97] :=
  ⟨rfl, by decide, by decide⟩

/-- C8 (amended): `Keys::apply` includes a stored key `k` in its reply iff
the pattern is `"*"`, or the pattern with every `*` stripped is empty, or
the stripped pattern occurs in `k` as a contiguous substring — exact
equality is just the special case where the substring is the whole key. -/
theorem c8_keys_amended {S J : Type} (E : Externs S J) (db : Db S J)
    (pattern : List Nat) (k : List Nat) :
    ∃ frames, (applyCommand E (.keys pattern) db).2 = [.array frames] ∧
      (Frame.bulk k ∈ frames ↔
        k ∈ db.keys ∧
          (pattern = strBytes "*" ∨ pattern.filter (· ≠ 42) = [] ∨
            pattern.filter (· ≠ 42) <:+: k)) := by
  have harm : (applyCommand E (.keys pattern) db).2 =
      [.array ((if pattern = strBytes "*" then db.keys
        else retainContains db.keys pattern).map Frame.bulk)] := rfl
  rw [harm]
  refine ⟨_, rfl, ?_⟩
  have hmem : ∀ ks : List (List Nat), Frame.bulk k ∈ ks.map Frame.bulk ↔ k ∈ ks := by
    intro ks
    rw [List.mem_map]
    constructor
    · intro ⟨a, ha, hak⟩
      cases hak
      exact ha
    · intro h
      exact ⟨k, h, rfl⟩
  by_cases hstar : pattern = strBytes "*"
  · rw [if_pos hstar, hmem]
    simp [hstar]
  · rw [if_neg hstar, retainContains]
    by_cases hemp : (pattern.filter (· ≠ 42)).isEmpty
    · rw [if_pos hemp, hmem]
      have hnil : pattern.filter (· ≠ 42) = [] := by
        rwa [List.isEmpty_iff] at hemp
      constructor
      · intro h
        exact ⟨h, Or.inr (Or.inl hnil)⟩
      · intro h
        exact h.1
    · rw [if_neg hemp, hmem, List.mem_filter]
      have hne : pattern.filter (· ≠ 42) ≠ [] := by
        rwa [List.isEmpty_iff] at hemp
      simp only [bytesContains_iff]
      constructor
      · intro ⟨h1, h2⟩
        exact ⟨h1, Or.inr (Or.inr h2)⟩
      · intro ⟨h1, h2⟩
        rcases h2 with h2 | h2 | h2
        · exact absurd h2 hstar
        · exact absurd h2 hne
        · exact ⟨h1, h2⟩

/-- The EXEC arm of `processCmd`, as a rewriting equation. -/
theorem processCmd_exec {S J : Type} (E : Externs S J) (st : TransactionState S)
    (db : Db S J) :
    processCmd E st db .exec =
      if !st.active then
        (st, db, [.frame (.error (strBytes "ERR EXEC without MULTI"))])
      else if st.watched.all (fun w => db.version (db.shardOf w.1) = w.2) then
        (⟨[], [], false⟩, (applyQueue E st.queued db).1,
         .arrayHeader st.queued.length ::
           ((applyQueue E st.queued db).2.map .frame))
      else (⟨[], [], false⟩, db, [.frame .null]) := rfl

/-! ## C9: observably-no-op writes still bump the shard version -/

theorem saddFold_noop (s : List (List Nat)) :
    ∀ (ms : List (List Nat)) (c : Nat), (∀ m ∈ ms, m ∈ s) →
      ms.foldl (fun p m =>
        let q := memberAdd p.1 m
        (q.1, p.2 + if q.2 then 1 else 0)) (s, c) = (s, c) := by
  intro ms
  induction ms with
  | nil => intro c _; rfl
  | cons m ms ih =>
    intro c h
    have hm : m ∈ s := h m (List.mem_cons_self ..)
    have hstep : (let q := memberAdd (s, c).1 m
        ((q.1, (s, c).2 + if q.2 then 1 else 0) : List (List Nat) × Nat)) = (s, c) := by
      simp [memberAdd, hm]
    rw [List.foldl_cons, hstep]
    exact ih c (fun x hx => h x (List.mem_cons_of_mem _ hx))

theorem sremFold_noop (s : List (List Nat)) :
    ∀ (ms : List (List Nat)) (c : Nat), (∀ m ∈ ms, m ∉ s) →
      ms.foldl (fun p m =>
        let q := memberRemove p.1 m
        (q.1, p.2 + if q.2 then 1 else 0)) (s, c) = (s, c) := by
  intro ms
  induction ms with
  | nil => intro c _; rfl
  | cons m ms ih =>
    intro c h
    have hm : m ∉ s := h m (List.mem_cons_self ..)
    have hstep : (let q := memberRemove (s, c).1 m
        ((q.1, (s, c).2 + if q.2 then 1 else 0) : List (List Nat) × Nat)) = (s, c) := by
      simp [memberRemove, hm]
    rw [List.foldl_cons, hstep]
    exact ih c (fun x hx => h x (List.mem_cons_of_mem _ hx))

/-- C9: `SREM` of members not in the set and `SADD` of members already in the
set leave the stored entries untouched, yet both rewrite the value through
`Db::set_value` and therefore strictly increase the owning shard's version;
consequently an EXEC whose session watched ANY key of the same shard (with
the pre-write version captured) aborts with a Null frame. -/
theorem c9_noop_set_writes_bump_version {S J : Type} (E : Externs S J)
    (db : Db S J) (k : List Nat) (s : List (List Nat))
    (ms₁ ms₂ : List (List Nat))
    (hk : db.getValue k = some (.set s))
    (hrem : ∀ m ∈ ms₁, m ∉ s) (hadd : ∀ m ∈ ms₂, m ∈ s) :
    ((applyCommand E (.srem k ms₁) db).1.entries = db.entries ∧
     (applyCommand E (.srem k ms₁) db).1.version (db.shardOf k) =
       db.version (db.shardOf k) + 1 ∧
     (applyCommand E (.srem k ms₁) db).2 = [.integer 0]) ∧
    ((applyCommand E (.sadd k ms₂) db).1.entries = db.entries ∧
     (applyCommand E (.sadd k ms₂) db).1.version (db.shardOf k) =
       db.version (db.shardOf k) + 1 ∧
     (applyCommand E (.sadd k ms₂) db).2 = [.integer 0]) ∧
    (∀ (k2 : List Nat) (q : List (Command S)), db.shardOf k2 = db.shardOf k →
       processCmd E ⟨q, [(k2, db.version (db.shardOf k2))], true⟩
           ((applyCommand E (.srem k ms₁) db).1) .exec =
         (⟨[], [], false⟩, (applyCommand E (.srem k ms₁) db).1, [.frame .null])) := by
  have hsrem : applyCommand E (.srem k ms₁) db =
      (db.setValue k (.set s), [.integer 0]) := by
    show (match db.getValue k with
      | some (DataType.set s) =>
        let r := sremFold s ms₁
        (db.setValue k (DataType.set r.1), [Frame.integer r.2])
      | none => (db, [Frame.integer 0])
      | some _ => (db, [Frame.error wrongTypeMsg])) =
      (db.setValue k (DataType.set s), [Frame.integer 0])
    rw [hk]
    show (let r := sremFold s ms₁;
        (db.setValue k (DataType.set r.1), [Frame.integer r.2])) =
      (db.setValue k (DataType.set s), [Frame.integer 0])
    rw [show sremFold s ms₁ = (s, 0) from sremFold_noop s ms₁ 0 hrem]
    rfl
  have hsadd : applyCommand E (.sadd k ms₂) db =
      (db.setValue k (.set s), [.integer 0]) := by
    show (match db.getValue k with
      | some (DataType.set s) =>
        let r := saddFold s ms₂
        (db.setValue k (DataType.set r.1), [Frame.integer r.2])
      | none =>
        let r := saddFold [] ms₂
        (db.setValue k (DataType.set r.1), [Frame.integer r.2])
      | some _ => (db, [Frame.error wrongTypeMsg])) =
      (db.setValue k (DataType.set s), [Frame.integer 0])
    rw [hk]
    show (let r := saddFold s ms₂;
        (db.setValue k (DataType.set r.1), [Frame.integer r.2])) =
      (db.setValue k (DataType.set s), [Frame.integer 0])
    rw [show saddFold s ms₂ = (s, 0) from saddFold_noop s ms₂ 0 hadd]
    rfl
  have hent : (db.setValue k (.set s)).entries = db.entries := by
    simp only [Db.setValue]
    exact assocPut_eq_self _ _ _ hk
  refine ⟨⟨?_, ?_, ?_⟩, ⟨?_, ?_, ?_⟩, ?_⟩
  · rw [hsrem]; exact hent
  · rw [hsrem]; exact db.setValue_version_self k _
  · rw [hsrem]
  · rw [hsadd]; exact hent
  · rw [hsadd]; exact db.setValue_version_self k _
  · rw [hsadd]
  intro k2 q hsh
  rw [hsrem, processCmd_exec]
  have hvne : (db.setValue k (.set s)).version
      ((db.setValue k (.set s)).shardOf k2) ≠ db.version (db.shardOf k2) := by
    have hsh2 : (db.setValue k (.set s)).shardOf k2 = db.shardOf k2 := rfl
    rw [hsh2]
    simp only [Db.setValue, Db.bumpVersion, hsh]
    simp
  have hall : ([(k2, db.version (db.shardOf k2))].all
      (fun w => ((db.setValue k (.set s), ([.integer 0] : List Frame)).1).version
        (((db.setValue k (.set s), ([.integer 0] : List Frame)).1).shardOf w.1) = w.2)) = false := by
    simp only [List.all_cons, List.all_nil, Bool.and_true]
    exact decide_eq_false hvne
  rw [hall]
  rfl

/-- A one-member set under key `"s"`, with shard versions at 9. -/
def c9db : Db Unit Unit := ⟨fun _ => 7, [([115], .set [[109]])], fun _ => 9⟩

/-- C9 (witness): the theorem applied to `c9db`, removing the absent member
`"z"` and re-adding the present member `"m"`, with the watch on the same
key. -/
theorem c9_noop_set_writes_bump_version_witness :
    ((applyCommand unitExterns (.srem [115] [[122]]) c9db).1.entries =
       c9db.entries ∧
     (applyCommand unitExterns (.srem [115] [[122]]) c9db).1.version
         (c9db.shardOf [115]) = c9db.version (c9db.shardOf [115]) + 1 ∧
     (applyCommand unitExterns (.srem [115] [[122]]) c9db).2 = [.integer 0]) ∧
    ((applyCommand unitExterns (.sadd [115] [[109]]) c9db).1.entries =
       c9db.entries ∧
     (applyCommand unitExterns (.sadd [115] [[109]]) c9db).1.version
         (c9db.shardOf [115]) = c9db.version (c9db.shardOf [115]) + 1 ∧
     (applyCommand unitExterns (.sadd [115] [[109]]) c9db).2 = [.integer 0]) ∧
    (∀ (k2 : List Nat) (q : List (Command Unit)),
       c9db.shardOf k2 = c9db.shardOf [115] →
       processCmd unitExterns ⟨q, [(k2, c9db.version (c9db.shardOf k2))], true⟩
           ((applyCommand unitExterns (.srem [115] [[122]]) c9db).1) .exec =
         (⟨[], [], false⟩, (applyCommand unitExterns (.srem [115] [[122]]) c9db).1,
          [.frame .null])) :=
  c9_noop_set_writes_bump_version unitExterns c9db [115] [[109]] [[122]] [[109]]
    rfl (by decide) (by decide)

/-! ## C1: EXEC under the exclusive coordination lease -/

set_option maxHeartbeats 2000000 in
/-- Every command's `apply` writes exactly one top-level frame (each arm of
every `apply` in `cmd.rs` performs exactly one `write_frame` before
returning). -/
theorem applyCommand_one {S J : Type} (E : Externs S J) (c : Command S)
    (db : Db S J) : ∃ f, (applyCommand E c db).2 = [f] := by
  cases c <;> unfold applyCommand <;> (repeat' split) <;> exact ⟨_, rfl⟩

/-- The EXEC drain writes exactly as many top-level frames as there are
queued commands. -/
theorem applyQueue_length {S J : Type} (E : Externs S J) (q : List (Command S)) :
    ∀ db : Db S J, (applyQueue E q db).2.length = q.length := by
  induction q with
  | nil => intro db; rfl
  | cons c cs ih =>
    intro db
    obtain ⟨f, hf⟩ := applyCommand_one E c db
    show ((applyCommand E c db).2 ++
      (applyQueue E cs (applyCommand E c db).1).2).length = cs.length + 1
    rw [List.length_append, hf, ih]
    simp [Nat.add_comm]

/-- C1: for a Buffering session (`active`) with a non-empty watch set, EXEC
under the exclusive lease compares every watched `(key, captured-version)`
pair against the current version of the key's shard.  If any differs, the
response is the single Null frame and the store is untouched; if all agree,
the array header for the queued count is emitted and the queued commands are
applied in order (`applyQueue` threads the store left to right), each
writing exactly one top-level frame; in both outcomes the queue and watch
set are cleared and the session leaves Buffering. -/
theorem c1_exec_transaction {S J : Type} (E : Externs S J)
    (st : TransactionState S) (db : Db S J)
    (hact : st.active = true) (_hw : st.watched ≠ []) :
    ((∃ w ∈ st.watched, db.version (db.shardOf w.1) ≠ w.2) →
       processCmd E st db .exec = (⟨[], [], false⟩, db, [.frame .null])) ∧
    ((∀ w ∈ st.watched, db.version (db.shardOf w.1) = w.2) →
       processCmd E st db .exec =
         (⟨[], [], false⟩, (applyQueue E st.queued db).1,
          .arrayHeader st.queued.length ::
            ((applyQueue E st.queued db).2.map .frame)) ∧
       (applyQueue E st.queued db).2.length = st.queued.length) := by
  rw [processCmd_exec, hact]
  constructor
  · intro ⟨w, hwmem, hne⟩
    have hall : st.watched.all
        (fun w => db.version (db.shardOf w.1) = w.2) = false := by
      cases hv : st.watched.all (fun w => db.version (db.shardOf w.1) = w.2) with
      | false => rfl
      | true =>
        have := List.all_eq_true.mp hv w hwmem
        rw [decide_eq_true_eq] at this
        exact absurd this hne
    rw [hall]
    rfl
  · intro hok
    have hall : st.watched.all
        (fun w => db.version (db.shardOf w.1) = w.2) = true :=
      List.all_eq_true.mpr (fun w hwmem => decide_eq_true (hok w hwmem))
    rw [hall]
    exact ⟨rfl, applyQueue_length E st.queued db⟩

/-- An empty store with all shard versions at 5. -/
def c1db : Db Unit Unit := ⟨fun _ => 0, [], fun _ => 5⟩

/-- C1 (witness): the theorem applied to a session queuing one SET, once
with a stale watched version (3 ≠ 5: Null, store untouched) and once with
the matching one (array header plus the one `+OK`). -/
theorem c1_exec_transaction_witness :
    processCmd unitExterns ⟨[Command.set [107] [50]], [([119], 3)], true⟩
        c1db .exec = (⟨[], [], false⟩, c1db, [.frame .null]) ∧
    processCmd unitExterns ⟨[Command.set [107] [50]], [([119], 5)], true⟩
        c1db .exec =
      (⟨[], [], false⟩,
       (applyQueue unitExterns [Command.set [107] [50]] c1db).1,
       [.arrayHeader 1, .frame (.simple (strBytes "OK"))]) := by
  constructor
  · exact (c1_exec_transaction unitExterns
      ⟨[Command.set [107] [50]], [([119], 3)], true⟩ c1db rfl (by decide)).1
      ⟨([119], 3), by decide, by decide⟩
  · exact ((c1_exec_transaction unitExterns
      ⟨[Command.set [107] [50]], [([119], 5)], true⟩ c1db rfl (by decide)).2
      (by decide)).1

/-! ## C7: ZRANGE and the WITHSCORES argument -/

/-- C7 (counterexample): `ZRANGE z 0 -1 WITHSCORES` does not parse into a
command — `ZRange::parse_frames` reads only key/start/stop ("Ignore
WITHSCORES for now") and `Command::from_frame` then calls `Parse::finish`,
which rejects the unconsumed `WITHSCORES` element with a protocol error, so
the command DOES fail on the extra argument and scores are never emitted. -/
theorem c7_zrange_withscores_is_rejected :
    Command.fromFrame (fun _ => ()) (.array [.bulk (strBytes "zrange"),
      .bulk (strBytes "z"), .bulk (strBytes "0"), .bulk (strBytes "-1"),
      .bulk (strBytes "WITHSCORES")]) =
    (.error "protocol error; expected end of frame" :
      Except String (Command Unit)) := rfl

/-- C7 (amended): a ZRANGE array parses exactly key, start, stop; with no
trailing argument it yields the `zrange` command (whose reply never contains
scores — `ZRange::apply` emits members only), and ANY trailing argument —
in particular `WITHSCORES` — makes `Command::from_frame` fail with
`protocol error; expected end of frame`, so the command is never executed. -/
theorem c7_zrange_amended {S : Type} (pf : List Nat → S) (kB : List Nat)
    (hk : (utf8Decode kB).isSome = true) (a b : Int) (extra : List Frame) :
    Command.fromFrame pf (.array ([.bulk (strBytes "zrange"), .bulk kB,
      .integer a, .integer b] ++ extra)) =
      if extra.isEmpty then .ok (.zrange kB a b)
      else .error "protocol error; expected end of frame" := by
  have harm : Command.fromFrame pf (.array ([.bulk (strBytes "zrange"),
      .bulk kB, .integer a, .integer b] ++ extra)) =
      pFinish (ZRange.parseFrames (.bulk kB :: .integer a :: .integer b :: extra)) := rfl
  rw [harm, ZRange.parseFrames]
  show pFinish (pthen (frameAsString (.bulk kB), .integer a :: .integer b :: extra)
    fun k st => pthen (pNextInt st) fun start st =>
      pmap (pNextInt st) fun stop => Command.zrange k start stop) = _
  rw [frameAsString, if_pos hk]
  rfl

/-- C7 (witness): the amended statement at `ZRANGE z 0 -1 WITHSCORES`. -/
theorem c7_zrange_amended_witness :
    Command.fromFrame (fun _ => ()) (.array ([.bulk (strBytes "zrange"),
      .bulk (strBytes "z"), .integer 0, .integer (-1)] ++
        [.bulk (strBytes "WITHSCORES")])) =
    (.error "protocol error; expected end of frame" :
      Except String (Command Unit)) :=
  c7_zrange_amended (fun _ => ()) (strBytes "z") (by decide) 0 (-1)
    [.bulk (strBytes "WITHSCORES")]

/-! ## C6: prefixes of encoded frames -/

theorem encodeFrame_simple (s : List Nat) :
    encodeFrame (.simple s) = 43 :: (s ++ [CR, LF]) := by
  simp [encodeFrame]

theorem encodeFrame_error (s : List Nat) :
    encodeFrame (.error s) = 45 :: (s ++ [CR, LF]) := by
  simp [encodeFrame]

theorem encodeFrame_integer (n : Int) :
    encodeFrame (.integer n) = 58 :: (intAscii n ++ [CR, LF]) := by
  simp [encodeFrame]

theorem encodeFrame_bulk (b : List Nat) :
    encodeFrame (.bulk b) = 36 :: (natAscii b.length ++ [CR, LF] ++ b ++ [CR, LF]) := by
  simp [encodeFrame]

theorem encodeFrame_null : encodeFrame .null = [36, 45, 49, CR, LF] := by
  simp [encodeFrame]

theorem encodeFrame_array (fs : List Frame) :
    encodeFrame (.array fs) = 42 :: (natAscii fs.length ++ [CR, LF] ++ encodeFrames fs) := by
  simp [encodeFrame]

theorem encodeFrames_nil : encodeFrames [] = [] := by simp [encodeFrames]

theorem encodeFrames_cons (f : Frame) (fs : List Frame) :
    encodeFrames (f :: fs) = encodeFrame f ++ encodeFrames fs := by
  simp [encodeFrames]

theorem encodeFrame_length_pos (f : Frame) : 1 ≤ (encodeFrame f).length := by
  cases f with
  | simple s => rw [encodeFrame_simple]; simp
  | error s => rw [encodeFrame_error]; simp
  | integer n => rw [encodeFrame_integer]; simp
  | bulk b => rw [encodeFrame_bulk]; simp
  | null => rw [encodeFrame_null]; simp
  | array fs => rw [encodeFrame_array]; simp

theorem crlfFreeF_simple (s : List Nat) : crlfFreeF (.simple s) = lineFree s := by
  simp [crlfFreeF]

theorem crlfFreeF_error (s : List Nat) : crlfFreeF (.error s) = lineFree s := by
  simp [crlfFreeF]

theorem crlfFreeF_array (fs : List Frame) : crlfFreeF (.array fs) = crlfFreeL fs := by
  simp [crlfFreeF]

theorem crlfFreeL_cons (f : Frame) (fs : List Frame) :
    crlfFreeL (f :: fs) = (crlfFreeF f && crlfFreeL fs) := by
  simp [crlfFreeL]

theorem intAscii_no_CR (i : Int) : ∀ c ∈ intAscii i, c ≠ CR := by
  intro c hc
  rw [intAscii] at hc
  by_cases hi : i < 0
  · rw [if_pos hi] at hc
    rcases List.mem_cons.1 hc with h | h
    · subst h; simp [CR]
    · exact isDigit_ne_CR (natAscii_digits _ c h)
  · rw [if_neg hi] at hc
    exact isDigit_ne_CR (natAscii_digits _ c hc)

theorem intAscii_lineFree (i : Int) : lineFree (intAscii i) = true :=
  lineFree_of_no_CR _ (intAscii_no_CR i)

/-! Branch equations for `checkBody`. -/

theorem checkBody_plus (chk : List Nat → CRes) (rest : List Nat) :
    checkBody chk 43 rest =
      (match getLine rest with
       | none => .incomplete
       | some (_, r) => .ok r) := by
  unfold checkBody
  norm_num

theorem checkBody_minus (chk : List Nat → CRes) (rest : List Nat) :
    checkBody chk 45 rest =
      (match getLine rest with
       | none => .incomplete
       | some (_, r) => .ok r) := by
  unfold checkBody
  norm_num

theorem checkBody_colon (chk : List Nat → CRes) (rest : List Nat) :
    checkBody chk 58 rest =
      (match getLine rest with
       | none => .incomplete
       | some (line, r) =>
         match atoiInt line with
         | none => .invalid
         | some _ => .ok r) := by
  unfold checkBody
  norm_num

theorem checkBody_dollar (chk : List Nat → CRes) (rest : List Nat) :
    checkBody chk 36 rest =
      (match rest with
       | [] => .incomplete
       | d :: _ =>
         if d = 45 then
           if 4 ≤ rest.length then .ok (rest.drop 4) else .incomplete
         else
           match getLine rest with
           | none => .incomplete
           | some (line, r) =>
             match atoiNat line with
             | none => .invalid
             | some len =>
               if len + 2 ≤ r.length then .ok (r.drop (len + 2))
               else .incomplete) := by
  unfold checkBody
  norm_num

theorem checkBody_star (chk : List Nat → CRes) (rest : List Nat) :
    checkBody chk 42 rest =
      (match getLine rest with
       | none => .incomplete
       | some (line, r) =>
         match atoiNat line with
         | none => .invalid
         | some len => checkArr chk len r) := by
  unfold checkBody
  norm_num

/-- A complete CRLF-free-frame encoding followed by anything: `check`
consumes exactly the encoding (any fuel above the buffer length). -/
theorem checkFuel_complete :
    ∀ fuel (f : Frame) (r : List Nat), crlfFreeF f = true →
      (encodeFrame f ++ r).length < fuel →
      checkFuel fuel (encodeFrame f ++ r) = .ok r := by
  intro fuel
  induction fuel using Nat.strong_induction_on with
  | _ fuel ih =>
    intro f r hgood hlen
    cases fuel with
    | zero => omega
    | succ fuel =>
      cases f with
      | simple s =>
        rw [crlfFreeF_simple] at hgood
        rw [encodeFrame_simple,
          show (43 :: (s ++ [CR, LF])) ++ r = 43 :: (s ++ CR :: LF :: r) by simp,
          checkFuel_cons, checkBody_plus, getLine_split s hgood r]
      | error s =>
        rw [crlfFreeF_error] at hgood
        rw [encodeFrame_error,
          show (45 :: (s ++ [CR, LF])) ++ r = 45 :: (s ++ CR :: LF :: r) by simp,
          checkFuel_cons, checkBody_minus, getLine_split s hgood r]
      | integer n =>
        rw [encodeFrame_integer,
          show (58 :: (intAscii n ++ [CR, LF])) ++ r =
            58 :: (intAscii n ++ CR :: LF :: r) by simp,
          checkFuel_cons, checkBody_colon,
          getLine_split _ (intAscii_lineFree n) r]
        dsimp only
        obtain ⟨m, hm⟩ := Option.isSome_iff_exists.mp (atoiInt_intAscii_isSome n)
        rw [hm]
      | bulk b =>
        obtain ⟨c, t, hct⟩ : ∃ c t, natAscii b.length = c :: t := by
          cases h : natAscii b.length with
          | nil => exact absurd h (natAscii_ne_nil _)
          | cons c t => exact ⟨c, t, rfl⟩
        have hdig : isDigit c = true := natAscii_digits _ c (by rw [hct]; simp)
        have h45 : ¬(c = 45) := by
          simp only [isDigit, decide_eq_true_eq] at hdig; omega
        rw [encodeFrame_bulk,
          show (36 :: (natAscii b.length ++ [CR, LF] ++ b ++ [CR, LF])) ++ r =
            36 :: (natAscii b.length ++ CR :: LF :: (b ++ CR :: LF :: r)) by simp,
          checkFuel_cons, checkBody_dollar]
        rw [hct]
        simp only [List.cons_append]
        rw [if_neg h45, ← List.cons_append, ← hct,
          getLine_split _ (natAscii_lineFree _)]
        dsimp only
        rw [atoiNat_natAscii]
        dsimp only
        have hle : b.length + 2 ≤ (b ++ CR :: LF :: r).length := by simp
        rw [if_pos hle,
          show b ++ CR :: LF :: r = (b ++ [CR, LF]) ++ r by simp,
          show b.length + 2 = (b ++ [CR, LF]).length by simp,
          List.drop_left]
      | null =>
        rw [encodeFrame_null,
          show ([36, 45, 49, CR, LF] : List Nat) ++ r =
            36 :: (45 :: 49 :: CR :: LF :: r) by simp,
          checkFuel_cons, checkBody_dollar]
        dsimp only
        rw [if_pos rfl, if_pos (by simp)]
        simp
      | array fs =>
        rw [crlfFreeF_array] at hgood
        obtain ⟨c, t, hct⟩ : ∃ c t, natAscii fs.length = c :: t := by
          cases h : natAscii fs.length with
          | nil => exact absurd h (natAscii_ne_nil _)
          | cons c t => exact ⟨c, t, rfl⟩
        rw [encodeFrame_array,
          show (42 :: (natAscii fs.length ++ [CR, LF] ++ encodeFrames fs)) ++ r =
            42 :: (natAscii fs.length ++ CR :: LF :: (encodeFrames fs ++ r)) by simp,
          checkFuel_cons, checkBody_star,
          getLine_split _ (natAscii_lineFree _)]
        dsimp only
        rw [atoiNat_natAscii]
        dsimp only
        have hlen' : (encodeFrames fs ++ r).length < fuel := by
          rw [encodeFrame_array] at hlen
          have hD : 1 ≤ (natAscii fs.length).length := by
            rw [hct]; simp
          simp only [List.cons_append, List.length_cons, List.length_append] at hlen ⊢
          omega
        clear hct hlen
        induction fs generalizing r with
        | nil => rw [encodeFrames_nil, List.nil_append]; rfl
        | cons g gs ihg =>
          rw [crlfFreeL_cons, Bool.and_eq_true] at hgood
          rw [encodeFrames_cons, List.append_assoc, List.length_cons]
          have hlen2 : (encodeFrame g ++ (encodeFrames gs ++ r)).length < fuel := by
            rw [encodeFrames_cons, List.append_assoc] at hlen'
            exact hlen'
          rw [checkArr,
            ih fuel (Nat.lt_succ_self fuel) g (encodeFrames gs ++ r) hgood.1 hlen2]
          have hpos := encodeFrame_length_pos g
          exact ihg r hgood.2
            (by simp only [List.length_append] at hlen2 ⊢; omega)

/-- Cancelling a common prefix of two appends inside a prefix relation. -/
theorem prefix_append_cancel {a q b : List Nat} (h : a ++ q <+: a ++ b) :
    q <+: b := by
  obtain ⟨t, ht⟩ := h
  rw [List.append_assoc] at ht
  exact ⟨t, List.append_cancel_left ht⟩

/-- A strict prefix of the encoding of a CRLF-free frame always checks
Incomplete, at any fuel above the prefix length. -/
theorem checkFuel_strict_front :
    ∀ fuel (f : Frame) (p : List Nat), crlfFreeF f = true →
      p <+: encodeFrame f → p.length < (encodeFrame f).length →
      p.length < fuel → checkFuel fuel p = .incomplete := by
  intro fuel
  induction fuel using Nat.strong_induction_on with
  | _ fuel ih =>
    intro f p hgood hpre hplt hpf
    cases fuel with
    | zero => omega
    | succ fuel =>
      cases p with
      | nil => rfl
      | cons c q =>
        cases f with
        | simple s =>
          rw [crlfFreeF_simple] at hgood
          rw [encodeFrame_simple] at hpre hplt
          rw [List.cons_prefix_cons] at hpre
          obtain ⟨hc, hq⟩ := hpre
          subst hc
          rw [checkFuel_cons, checkBody_plus]
          have hq' : q <+: s ++ [CR] := by
            refine List.prefix_of_prefix_length_le hq ⟨[LF], by simp⟩ ?_
            simp only [List.length_cons, List.length_append] at hplt ⊢
            simp at hplt ⊢
            omega
          rw [getLine_none _ ( lineFree_of_prefix _ _ (lineFree_append_CR s hgood) hq')]
        | error s =>
          rw [crlfFreeF_error] at hgood
          rw [encodeFrame_error] at hpre hplt
          rw [List.cons_prefix_cons] at hpre
          obtain ⟨hc, hq⟩ := hpre
          subst hc
          rw [checkFuel_cons, checkBody_minus]
          have hq' : q <+: s ++ [CR] := by
            refine List.prefix_of_prefix_length_le hq ⟨[LF], by simp⟩ ?_
            simp only [List.length_cons, List.length_append] at hplt ⊢
            simp at hplt ⊢
            omega
          rw [getLine_none _ ( lineFree_of_prefix _ _ (lineFree_append_CR s hgood) hq')]
        | integer n =>
          rw [encodeFrame_integer] at hpre hplt
          rw [List.cons_prefix_cons] at hpre
          obtain ⟨hc, hq⟩ := hpre
          subst hc
          rw [checkFuel_cons, checkBody_colon]
          have hq' : q <+: intAscii n ++ [CR] := by
            refine List.prefix_of_prefix_length_le hq ⟨[LF], by simp⟩ ?_
            simp only [List.length_cons, List.length_append] at hplt ⊢
            simp at hplt ⊢
            omega
          rw [getLine_none _ ( lineFree_of_prefix _ _
            (lineFree_append_CR _ (intAscii_lineFree n)) hq')]
        | null =>
          rw [encodeFrame_null] at hpre hplt
          rw [show ([36, 45, 49, CR, LF] : List Nat) = 36 :: [45, 49, CR, LF] from rfl]
            at hpre
          rw [List.cons_prefix_cons] at hpre
          obtain ⟨hc, hq⟩ := hpre
          subst hc
          rw [checkFuel_cons, checkBody_dollar]
          cases q with
          | nil => rfl
          | cons d q' =>
            rw [List.cons_prefix_cons] at hq
            obtain ⟨hd, hq'⟩ := hq
            subst hd
            dsimp only
            rw [if_pos rfl]
            have hlen4 : ¬(4 ≤ (45 :: q').length) := by
              simp only [List.length_cons] at hplt ⊢
              simp at hplt ⊢
              omega
            rw [if_neg hlen4]
        | bulk b =>
          rw [encodeFrame_bulk] at hpre hplt
          have hx : natAscii b.length ++ [CR, LF] ++ b ++ [CR, LF] =
              natAscii b.length ++ CR :: LF :: (b ++ [CR, LF]) := by simp
          rw [hx] at hpre hplt
          rw [List.cons_prefix_cons] at hpre
          obtain ⟨hc, hq⟩ := hpre
          subst hc
          rw [checkFuel_cons, checkBody_dollar]
          cases q with
          | nil => rfl
          | cons d q' =>
            obtain ⟨c0, t0, hD⟩ : ∃ c0 t0, natAscii b.length = c0 :: t0 := by
              cases h : natAscii b.length with
              | nil => exact absurd h (natAscii_ne_nil _)
              | cons c0 t0 => exact ⟨c0, t0, rfl⟩
            have hdg : isDigit c0 = true := natAscii_digits _ c0 (by rw [hD]; simp)
            have h45 : ¬(c0 = 45) := by
              simp only [isDigit, decide_eq_true_eq] at hdg; omega
            have hd0 : d = c0 ∧ d :: q' <+: natAscii b.length ++ CR :: LF :: (b ++ [CR, LF]) := by
              constructor
              · rw [hD, List.cons_append, List.cons_prefix_cons] at hq
                exact hq.1
              · exact hq
            obtain ⟨hd0, hq⟩ := hd0
            subst hd0
            dsimp only
            rw [if_neg h45]
            by_cases hql : (d :: q').length ≤ (natAscii b.length).length + 1
            · have hq2 : d :: q' <+: natAscii b.length ++ [CR] := by
                refine List.prefix_of_prefix_length_le hq
                  ⟨LF :: (b ++ [CR, LF]), by simp⟩ ?_
                simpa using hql
              rw [getLine_none _ ( lineFree_of_prefix _ _
                (lineFree_append_CR _ (natAscii_lineFree _)) hq2)]
            · have hA : (natAscii b.length ++ [CR, LF]) <+: d :: q' := by
                refine List.prefix_of_prefix_length_le
                  ⟨b ++ [CR, LF], by simp⟩ hq ?_
                simp only [List.length_append] at hql ⊢
                simp at hql ⊢
                omega
              obtain ⟨q2, hq2⟩ := hA
              rw [← hq2,
                show natAscii b.length ++ [CR, LF] ++ q2 =
                  natAscii b.length ++ CR :: LF :: q2 by simp,
                getLine_split _ (natAscii_lineFree _)]
              dsimp only
              rw [atoiNat_natAscii]
              dsimp only
              have hlq2 : ¬(b.length + 2 ≤ q2.length) := by
                have h1 : (natAscii b.length ++ [CR, LF] ++ q2).length =
                    (d :: q').length := by rw [hq2]
                simp only [List.length_cons, List.length_append] at hplt h1 ⊢
                simp at hplt h1 ⊢
                omega
              rw [if_neg hlq2]
        | array fs =>
          rw [crlfFreeF_array] at hgood
          rw [encodeFrame_array] at hpre hplt
          have hx : natAscii fs.length ++ [CR, LF] ++ encodeFrames fs =
              natAscii fs.length ++ CR :: LF :: encodeFrames fs := by simp
          rw [hx] at hpre hplt
          rw [List.cons_prefix_cons] at hpre
          obtain ⟨hc, hq⟩ := hpre
          subst hc
          rw [checkFuel_cons, checkBody_star]
          by_cases hql : q.length ≤ (natAscii fs.length).length + 1
          · have hq2 : q <+: natAscii fs.length ++ [CR] := by
              refine List.prefix_of_prefix_length_le hq
                ⟨LF :: encodeFrames fs, by simp⟩ ?_
              simpa using hql
            rw [getLine_none _ ( lineFree_of_prefix _ _
              (lineFree_append_CR _ (natAscii_lineFree _)) hq2)]
          · have hA : (natAscii fs.length ++ [CR, LF]) <+: q := by
              refine List.prefix_of_prefix_length_le
                ⟨encodeFrames fs, by simp⟩ hq ?_
              simp only [List.length_append] at hql ⊢
              simp at hql ⊢
              omega
            obtain ⟨q2, hq2⟩ := hA
            have hq2pre : q2 <+: encodeFrames fs := by
              apply prefix_append_cancel (a := natAscii fs.length ++ [CR, LF])
              rw [hq2]
              rw [show (natAscii fs.length ++ [CR, LF]) ++ encodeFrames fs =
                natAscii fs.length ++ CR :: LF :: encodeFrames fs by simp]
              exact hq
            have hq2lt : q2.length < (encodeFrames fs).length := by
              have h1 : (natAscii fs.length ++ [CR, LF] ++ q2).length = q.length := by
                rw [hq2]
              simp only [List.length_cons, List.length_append] at hplt h1 ⊢
              simp at hplt h1 ⊢
              omega
            have hq2f : q2.length < fuel := by
              have h1 : (natAscii fs.length ++ [CR, LF] ++ q2).length = q.length := by
                rw [hq2]
              simp only [List.length_cons, List.length_append] at hpf h1 ⊢
              simp at h1
              omega
            rw [← hq2,
              show natAscii fs.length ++ [CR, LF] ++ q2 =
                natAscii fs.length ++ CR :: LF :: q2 by simp,
              getLine_split _ (natAscii_lineFree _)]
            dsimp only
            rw [atoiNat_natAscii]
            dsimp only
            clear hq hq2 hql hplt hpf hx
            induction fs generalizing q2 with
            | nil =>
              rw [encodeFrames_nil] at hq2lt
              simp at hq2lt
            | cons g gs ihg =>
              rw [crlfFreeL_cons, Bool.and_eq_true] at hgood
              rw [encodeFrames_cons] at hq2pre hq2lt
              rw [List.length_cons, checkArr]
              by_cases hsplit : q2.length < (encodeFrame g).length
              · have hpg : q2 <+: encodeFrame g :=
                  List.prefix_of_prefix_length_le hq2pre (List.prefix_append _ _)
                    (by omega)
                rw [ih fuel (Nat.lt_succ_self fuel) g q2 hgood.1 hpg hsplit hq2f]
              · rcases prefix_split hq2pre with hcase | ⟨q3, rfl, hq3⟩
                · have hlen := hcase.length_le
                  have heq : q2 = encodeFrame g := hcase.eq_of_length (by omega)
                  subst heq
                  have hc0 : checkFuel fuel (encodeFrame g) = .ok [] := by
                    have hcc := checkFuel_complete fuel g [] hgood.1
                      (by simpa using hq2f)
                    simpa using hcc
                  rw [hc0]
                  have hpos := encodeFrame_length_pos g
                  refine ihg hgood.2 [] List.nil_prefix ?_ ?_
                  · simp only [List.length_append, List.length_nil] at hq2lt ⊢
                    omega
                  · simp only [List.length_nil]
                    omega
                · rw [checkFuel_complete fuel g q3 hgood.1 hq2f]
                  have hpos := encodeFrame_length_pos g
                  refine ihg hgood.2 q3 hq3 ?_ ?_
                  · simp only [List.length_append] at hq2lt
                    omega
                  · simp only [List.length_append] at hq2f
                    omega

/-- `getLine` consumes at least the line and its CRLF terminator: the
returned suffix is shorter than the input by at least two bytes. -/
theorem getLine_length :
    ∀ (b line r : List Nat), getLine b = some (line, r) → r.length + 2 ≤ b.length := by
  intro b
  induction b with
  | nil => intro line r h; simp [getLine] at h
  | cons a t iht =>
    intro line r h
    rw [getLine] at h
    split at h
    · rename_i hcond
      obtain ⟨-, hhd⟩ := hcond
      simp only [Option.some.injEq, Prod.mk.injEq] at h
      obtain ⟨-, hr⟩ := h
      subst hr
      cases t with
      | nil => simp at hhd
      | cons x t' => simp
    · cases hg : getLine t with
      | none => rw [hg] at h; simp at h
      | some p =>
        rw [hg] at h
        simp only [Option.map_some', Option.some.injEq, Prod.mk.injEq] at h
        obtain ⟨-, hr⟩ := h
        subst hr
        have := iht p.1 p.2 (by rw [hg])
        simp only [List.length_cons]
        omega

/-- On success, `Frame::check` returns a suffix no longer than its input. -/
theorem checkFuel_ok_le :
    ∀ fuel b r, checkFuel fuel b = CRes.ok r → r.length ≤ b.length := by
  intro fuel
  induction fuel using Nat.strong_induction_on with
  | _ fuel ih =>
    intro b r h
    cases fuel with
    | zero => exact CRes.noConfusion h
    | succ fuel =>
      cases b with
      | nil => exact CRes.noConfusion h
      | cons c rest =>
        rw [checkFuel_cons] at h
        have harr : ∀ n b' r', checkArr (checkFuel fuel) n b' = CRes.ok r' →
            r'.length ≤ b'.length := by
          intro n
          induction n with
          | zero =>
            intro b' r' h'
            rw [checkArr] at h'
            injection h' with hb
            subst hb
            exact le_refl _
          | succ n ihn =>
            intro b' r' h'
            rw [checkArr] at h'
            cases hc : checkFuel fuel b' with
            | ok r1 =>
              rw [hc] at h'
              dsimp only at h'
              exact le_trans (ihn r1 r' h') (ih fuel (Nat.lt_succ_self fuel) b' r1 hc)
            | incomplete => rw [hc] at h'; exact CRes.noConfusion h'
            | invalid => rw [hc] at h'; exact CRes.noConfusion h'
            | outOfFuel => rw [hc] at h'; exact CRes.noConfusion h'
        unfold checkBody at h
        split at h
        · -- '+': skip one line
          cases hg : getLine rest with
          | none => rw [hg] at h; exact CRes.noConfusion h
          | some p =>
            obtain ⟨l0, r0⟩ := p
            rw [hg] at h
            dsimp only at h
            injection h with hr
            subst hr
            have := getLine_length rest l0 r0 hg
            simp only [List.length_cons]
            omega
        · split at h
          · -- '-': skip one line
            cases hg : getLine rest with
            | none => rw [hg] at h; exact CRes.noConfusion h
            | some p =>
              obtain ⟨l0, r0⟩ := p
              rw [hg] at h
              dsimp only at h
              injection h with hr
              subst hr
              have := getLine_length rest l0 r0 hg
              simp only [List.length_cons]
              omega
          · split at h
            · -- ':': integer line
              cases hg : getLine rest with
              | none => rw [hg] at h; exact CRes.noConfusion h
              | some p =>
                obtain ⟨l0, r0⟩ := p
                rw [hg] at h
                dsimp only at h
                cases ha : atoiInt l0 with
                | none => rw [ha] at h; exact CRes.noConfusion h
                | some v =>
                  rw [ha] at h
                  dsimp only at h
                  injection h with hr
                  subst hr
                  have := getLine_length rest l0 r0 hg
                  simp only [List.length_cons]
                  omega
            · split at h
              · -- '$': bulk
                cases rest with
                | nil => exact CRes.noConfusion h
                | cons d rest' =>
                  dsimp only at h
                  split at h
                  · split at h
                    · injection h with hr
                      subst hr
                      simp only [List.length_drop, List.length_cons]
                      omega
                    · exact CRes.noConfusion h
                  · cases hg : getLine (d :: rest') with
                    | none => rw [hg] at h; exact CRes.noConfusion h
                    | some p =>
                      obtain ⟨l0, r0⟩ := p
                      rw [hg] at h
                      dsimp only at h
                      cases ha : atoiNat l0 with
                      | none => rw [ha] at h; exact CRes.noConfusion h
                      | some len =>
                        rw [ha] at h
                        dsimp only at h
                        split at h
                        · injection h with hr
                          subst hr
                          have := getLine_length _ _ _ hg
                          simp only [List.length_drop, List.length_cons] at this ⊢
                          omega
                        · exact CRes.noConfusion h
              · split at h
                · -- '*': array loop
                  cases hg : getLine rest with
                  | none => rw [hg] at h; exact CRes.noConfusion h
                  | some p =>
                    obtain ⟨l0, r0⟩ := p
                    rw [hg] at h
                    dsimp only at h
                    cases ha : atoiNat l0 with
                    | none => rw [ha] at h; exact CRes.noConfusion h
                    | some len =>
                      rw [ha] at h
                      dsimp only at h
                      have h1 := harr len r0 r h
                      have h2 := getLine_length _ _ _ hg
                      simp only [List.length_cons]
                      omega
                · -- inline command: skip the whole line including byte c
                  cases hg : getLine (c :: rest) with
                  | none => rw [hg] at h; exact CRes.noConfusion h
                  | some p =>
                    obtain ⟨l0, r0⟩ := p
                    rw [hg] at h
                    dsimp only at h
                    injection h with hr
                    subst hr
                    have := getLine_length _ _ _ hg
                    simp only [List.length_cons] at this ⊢
                    omega

/-- Fuel `length + 1` always suffices: the model's fuel exhaustion marker is
unreachable at the fuel used by `Frame.check`. -/
theorem checkFuel_ne_outOfFuel :
    ∀ fuel b, b.length < fuel → checkFuel fuel b ≠ CRes.outOfFuel := by
  intro fuel
  induction fuel using Nat.strong_induction_on with
  | _ fuel ih =>
    intro b hlen h
    cases fuel with
    | zero => omega
    | succ fuel =>
      cases b with
      | nil => exact CRes.noConfusion h
      | cons c rest =>
        rw [checkFuel_cons] at h
        have hrest : rest.length < fuel := by
          simp only [List.length_cons] at hlen
          omega
        have harr : ∀ n b', b'.length < fuel →
            checkArr (checkFuel fuel) n b' ≠ CRes.outOfFuel := by
          intro n
          induction n with
          | zero =>
            intro b' _ h'
            rw [checkArr] at h'
            exact CRes.noConfusion h'
          | succ n ihn =>
            intro b' hb h'
            rw [checkArr] at h'
            cases hc : checkFuel fuel b' with
            | ok r1 =>
              rw [hc] at h'
              dsimp only at h'
              exact ihn r1 (lt_of_le_of_lt (checkFuel_ok_le fuel b' r1 hc) hb) h'
            | incomplete => rw [hc] at h'; exact CRes.noConfusion h'
            | invalid => rw [hc] at h'; exact CRes.noConfusion h'
            | outOfFuel => exact ih fuel (Nat.lt_succ_self fuel) b' hb hc
        unfold checkBody at h
        split at h
        · cases hg : getLine rest with
          | none => rw [hg] at h; exact CRes.noConfusion h
          | some p =>
            obtain ⟨l0, r0⟩ := p
            rw [hg] at h
            exact CRes.noConfusion h
        · split at h
          · cases hg : getLine rest with
            | none => rw [hg] at h; exact CRes.noConfusion h
            | some p =>
              obtain ⟨l0, r0⟩ := p
              rw [hg] at h
              exact CRes.noConfusion h
          · split at h
            · cases hg : getLine rest with
              | none => rw [hg] at h; exact CRes.noConfusion h
              | some p =>
                obtain ⟨l0, r0⟩ := p
                rw [hg] at h
                dsimp only at h
                cases ha : atoiInt l0 with
                | none => rw [ha] at h; exact CRes.noConfusion h
                | some v => rw [ha] at h; exact CRes.noConfusion h
            · split at h
              · cases rest with
                | nil => exact CRes.noConfusion h
                | cons d rest' =>
                  dsimp only at h
                  split at h
                  · split at h
                    · exact CRes.noConfusion h
                    · exact CRes.noConfusion h
                  · cases hg : getLine (d :: rest') with
                    | none => rw [hg] at h; exact CRes.noConfusion h
                    | some p =>
                      obtain ⟨l0, r0⟩ := p
                      rw [hg] at h
                      dsimp only at h
                      cases ha : atoiNat l0 with
                      | none => rw [ha] at h; exact CRes.noConfusion h
                      | some len =>
                        rw [ha] at h
                        dsimp only at h
                        split at h
                        · exact CRes.noConfusion h
                        · exact CRes.noConfusion h
              · split at h
                · cases hg : getLine rest with
                  | none => rw [hg] at h; exact CRes.noConfusion h
                  | some p =>
                    obtain ⟨l0, r0⟩ := p
                    rw [hg] at h
                    dsimp only at h
                    cases ha : atoiNat l0 with
                    | none => rw [ha] at h; exact CRes.noConfusion h
                    | some len =>
                      rw [ha] at h
                      dsimp only at h
                      have h2 := getLine_length _ _ _ hg
                      exact harr len r0 (by omega) h
                · cases hg : getLine (c :: rest) with
                  | none => rw [hg] at h; exact CRes.noConfusion h
                  | some p =>
                    obtain ⟨l0, r0⟩ := p
                    rw [hg] at h
                    exact CRes.noConfusion h

/-- The fuel chosen by `Frame.check` is never exhausted. -/
theorem Frame.check_ne_outOfFuel (b : List Nat) : Frame.check b ≠ CRes.outOfFuel :=
  checkFuel_ne_outOfFuel (b.length + 1) b (Nat.lt_succ_self _)

/-- C6 counterexample: the claim quantifies over every frame, but a `Simple`
frame whose text itself contains a CR LF pair breaks it.  For
`F = Simple "a\r\nb"`, the four-byte strict prefix `+a\r\n` of `encode(F)`
is accepted by `Frame::check` as a complete frame (an `Ok` with empty rest),
not reported Incomplete. -/
theorem c6_prefix_of_crlf_simple_checks_ok :
    [43, 97, CR, LF] <+: encodeFrame (Frame.simple [97, CR, LF, 98]) ∧
    ([43, 97, CR, LF] : List Nat).length <
      (encodeFrame (Frame.simple [97, CR, LF, 98])).length ∧
    Frame.check [43, 97, CR, LF] = CRes.ok [] := by
  have he : encodeFrame (Frame.simple [97, CR, LF, 98]) =
      [43, 97, CR, LF, 98, CR, LF] := by
    rw [encodeFrame_simple]; rfl
  refine ⟨?_, ?_, ?_⟩
  · rw [he]; exact ⟨[98, CR, LF], rfl⟩
  · rw [he]; decide
  · rfl

/-- C6 (amended): for every frame whose `Simple` and `Error` texts are free of
embedded CR LF pairs — the only frames the encoder can serialize faithfully —
every strict prefix of the wire encoding is classified Incomplete by
`Frame::check`: never success and never Invalid. -/
theorem c6_amended (f : Frame) (p : List Nat) (hgood : crlfFreeF f = true)
    (hpre : p <+: encodeFrame f) (hlt : p.length < (encodeFrame f).length) :
    Frame.check p = CRes.incomplete :=
  checkFuel_strict_front (p.length + 1) f p hgood hpre hlt (Nat.lt_succ_self _)

/-- Witness for C6 (amended): the one-byte prefix `+` of the encoding of
`Simple "O"` checks Incomplete. -/
theorem c6_amended_witness :
    crlfFreeF (Frame.simple [79]) = true ∧
    [43] <+: encodeFrame (Frame.simple [79]) ∧
    ([43] : List Nat).length < (encodeFrame (Frame.simple [79])).length ∧
    Frame.check [43] = CRes.incomplete := by
  have he : encodeFrame (Frame.simple [79]) = [43, 79, CR, LF] := by
    rw [encodeFrame_simple]; rfl
  have hg : crlfFreeF (Frame.simple [79]) = true := by
    rw [crlfFreeF_simple]; rfl
  have hp : [43] <+: encodeFrame (Frame.simple [79]) := by
    rw [he]; exact ⟨[79, CR, LF], rfl⟩
  have hl : ([43] : List Nat).length < (encodeFrame (Frame.simple [79])).length := by
    rw [he]; decide
  exact ⟨hg, hp, hl, c6_amended (Frame.simple [79]) [43] hg hp hl⟩

end RB

namespace RB

-- sanity examples (kernel-reducible since all definitions are structural)
example : Frame.check [43, 79, 75, CR, LF] = .ok [] := by decide
example : Frame.check [43, 79, 75, CR] = .incomplete := by decide
example : Frame.check [36, 51, CR, LF, 97, 98, 99, 65, 66] = .ok [] := by decide
example : Frame.check [36, 51, CR, LF, 97, 98, 99, 65] = .incomplete := by decide
example : Frame.check [42, 50, CR, LF, 43, 97, CR, LF, 58, 53, CR, LF] = .ok [] := by decide
example : Frame.check [42, 50, CR, LF, 43, 97, CR, LF] = .incomplete := by decide
example : Frame.check [36, 45, 49, CR, LF, 99] = .ok [99] := by decide
example : Frame.check [104, 105, CR, LF] = .ok [] := by decide
example : Frame.check [58, 120, CR, LF] = .invalid := by decide

end RB
